import Mathlib

/-!
# Verification of the `ecs` entity-component-system storage engine

A shallow embedding of the archetype runtime of `marcakafoddex/ecs`
(files `include/Ecs.hh`, `include/Advanced.hh`, `src/Ecs.cpp`) and proofs
about it.

The embedding mirrors the C++ source:

* machine integers become `Nat` with explicit masking / `% 2 ^ w` where the
  C++ relies on fixed-width wrapping;
* the per-archetype columnar storage (`m_tuple` / `m_state` / `m_free`)
  becomes explicit lists carried in a structure, and the member functions
  become state-passing functions;
* C++ exceptions become `Except` / `Option` results;
* byte streams become `List Nat` (each element a byte value `< 256`).
-/

namespace EcsModel

/-! ## Identifier packing (enum values and `detail` helpers, Ecs.hh 107-119, 296-318) -/

/-- `EntityIndexVersionShift` -/
def EntityIndexVersionShift : Nat := 24

/-- `EntityIndexVersionBitLength` -/
def EntityIndexVersionBitLength : Nat := 7

/-- `EntityIndexVersionStart` -/
def EntityIndexVersionStart : Nat := 1

/-- `EntityIndexVersionMask` = `0x7f000000` -/
def EntityIndexVersionMask : Nat := 0x7f000000

/-- `EntityIndexMask` = `0x00ffffff` -/
def EntityIndexMask : Nat := 0x00ffffff

/-- `EntityInvalidId` -/
def EntityInvalidId : Nat := 0

/-- `EntityInvalidIndex` = `(EntityId_t)-1`, i.e. `0xffffffff` as a `uint32` -/
def EntityInvalidIndex : Nat := 0xffffffff

/-- `detail::versionFromState`: `state & (EntityIndexVersionMask >> EntityIndexVersionShift)` -/
def versionFromState (state : Nat) : Nat :=
  state &&& (EntityIndexVersionMask >>> EntityIndexVersionShift)

/-- `detail::emptyFromState`: `!!(state >> EntityIndexVersionBitLength)`
(the `EntityState_t` argument is a `uint8`, so the shift keeps only bit 7). -/
def emptyFromState (state : Nat) : Bool :=
  state >>> EntityIndexVersionBitLength != 0

/-- `detail::indexFromId`: `id & EntityIndexMask` -/
def indexFromId (id : Nat) : Nat := id &&& EntityIndexMask

/-- `detail::versionFromId`: `(id & EntityIndexVersionMask) >> EntityIndexVersionShift` -/
def versionFromId (id : Nat) : Nat :=
  (id &&& EntityIndexVersionMask) >>> EntityIndexVersionShift

/-- `detail::idFromIndexAndVersion`: `index | (version << EntityIndexVersionShift)` -/
def idFromIndexAndVersion (index version : Nat) : Nat :=
  index ||| (version <<< EntityIndexVersionShift)

/-- `detail::idFromIndexAndState`: `index | (versionFromState(state) << EntityIndexVersionShift)` -/
def idFromIndexAndState (index state : Nat) : Nat :=
  index ||| (versionFromState state <<< EntityIndexVersionShift)

/-- `detail::stateFromVersionAndEmpty`: `version | (!!empty << EntityIndexVersionBitLength)` -/
def stateFromVersionAndEmpty (version : Nat) (empty : Bool) : Nat :=
  version ||| ((if empty then 1 else 0) <<< EntityIndexVersionBitLength)

/-! ## Flag words (Ecs.hh 133-152) -/

/-- `ComponentFlagNoCleanComponent` -/
def ComponentFlagNoCleanComponent : Nat := 0x01

/-- `ComponentFlagCallPreDestroy` -/
def ComponentFlagCallPreDestroy : Nat := 0x02

/-- `ComponentFlagSerializeAsPODType` -/
def ComponentFlagSerializeAsPODType : Nat := 0x04

/-- `ComponentFlagNeverSerialize` -/
def ComponentFlagNeverSerialize : Nat := 0x08

/-- `ArchetypeFlagCompressableNoEntities` -/
def ArchetypeFlagCompressableNoEntities : Nat := 0x01

/-- `ArchetypeFlagAutoCompressNCalls` -/
def ArchetypeFlagAutoCompressNCalls : Nat := 0x02

/-- `ArchetypeFlagAutoCompressFreeThreshold` -/
def ArchetypeFlagAutoCompressFreeThreshold : Nat := 0x04

/-- `ArchetypeFlagAutoReserveNLeft` -/
def ArchetypeFlagAutoReserveNLeft : Nat := 0x08

/-- `ArchetypeFlagAutoReserveFullThreshold` -/
def ArchetypeFlagAutoReserveFullThreshold : Nat := 0x10

/-- `ArchetypeFlagNeverSerialize` -/
def ArchetypeFlagNeverSerialize : Nat := 0x20

/-- `ArchetypeFlagWithCreateDeleteTracking` -/
def ArchetypeFlagWithCreateDeleteTracking : Nat := 0x40

/-! ## Component metadata and columns

`IArchetype::ComponentInfo` plus the compile-time data a component type
carries (`staticName`, `staticComponentInfo`, `sizeof`, POD-ness).  One
`Column` bundles a component's metadata with its storage object from
`m_tuple`, its entry of `m_defaults`, and the value a default-constructed
component has (`_T()`, produced by `storage.resize`). -/

structure CompMeta where
  /-- `staticName()` as character codes -/
  name : List Nat
  /-- `staticComponentInfo(Version)`, truncated to `uint8` by the source -/
  version : Nat
  /-- `staticComponentInfo(Mask)` -/
  mask : Nat
  /-- `staticComponentInfo(Flags)` -/
  flags : Nat
  /-- `sizeof(Component)` in bytes -/
  size : Nat
  /-- `std::is_pod_v<Component>` -/
  podType : Bool
  deriving Repr, DecidableEq

/-- One component column of an archetype: the metadata, the
default values and the cells of the storage vector. -/
structure Column (α : Type) where
  meta : CompMeta
  /-- the archetype's `m_defaults` entry (`componentDefault()`), used by
  `create` (`emplace_back`) and by `ComponentCleaner` on `remove` -/
  dflt : α
  /-- the value of a default-constructed component `_T()`, used by
  `storage.resize` during `load` -/
  init : α
  /-- the storage contents (`storage[0] .. storage[size()-1]`) -/
  cells : List α
  deriving Repr, DecidableEq

/-- Does the component have `ComponentFlagNoCleanComponent` set?
(`ComponentCleanerImpl<_, true>` does nothing.) -/
def Column.noClean (c : Column α) : Bool :=
  c.meta.flags &&& ComponentFlagNoCleanComponent != 0

/-- Is the component streamed as one POD block?
(`std::is_pod_v<C> || (flags & ComponentFlagSerializeAsPODType)`). -/
def Column.isPod (c : Column α) : Bool :=
  c.meta.podType || (c.meta.flags &&& ComponentFlagSerializeAsPODType != 0)

/-- Is the component excluded from streaming?
(`flags & ComponentFlagNeverSerialize`; `StreamHelper<false, _, _>`). -/
def Column.neverSerialize (c : Column α) : Bool :=
  c.meta.flags &&& ComponentFlagNeverSerialize != 0

/-! ## The archetype (Ecs.hh 737-832)

`Archetype<_Flags, _Storage, _Components...>`.  The storage discipline is
captured by `growable` (`_Storage<_>::canReallocate()`) together with
`cap` (`m_state.capacity()`: the template parameter `N` for
`storage::Array`, the current heap capacity for `storage::Vector`). -/

structure Archetype (α : Type) where
  /-- `m_id` -/
  id : Nat
  /-- the `_Flags` template argument -/
  flags : Nat
  /-- `_Storage<_>::canReallocate()` -/
  growable : Bool
  /-- `m_tuple`, `m_componentInfo` and `m_defaults`, one entry per component -/
  tuple : List (Column α)
  /-- `m_state` (one byte per slot) -/
  state : List Nat
  /-- `m_free` (slot indices available for reuse) -/
  free : List Nat
  /-- `m_state.capacity()` (all storages share it) -/
  cap : Nat
  /-- `AutoCompressNCalls::m_nCalls` (default 10000) -/
  nCalls : Nat := 10000
  /-- `AutoCompressNCalls::m_currentCalls` -/
  currentCalls : Nat := 0
  /-- `AutoReserveNLeft::m_nLeft` (default 1) -/
  nLeft : Nat := 1
  deriving Repr, DecidableEq

namespace Archetype

variable {α : Type}

/-- `AllowCompression = !!(Flags & ArchetypeFlagCompressableNoEntities)` -/
def allowCompression (a : Archetype α) : Bool :=
  a.flags &&& ArchetypeFlagCompressableNoEntities != 0

/-- `AllowEntities = !(Flags & ArchetypeFlagCompressableNoEntities)` -/
def allowEntities (a : Archetype α) : Bool :=
  !(a.flags &&& ArchetypeFlagCompressableNoEntities != 0)

/-- `AllowSerialization = !(Flags & ArchetypeFlagNeverSerialize)` -/
def allowSerialization (a : Archetype α) : Bool :=
  !(a.flags &&& ArchetypeFlagNeverSerialize != 0)

/-- `staticMask()` = bitwise OR of all component masks -/
def staticMask (a : Archetype α) : Nat :=
  a.tuple.foldr (fun c m => c.meta.mask ||| m) 0

/-- `size()` = `m_state.size() - m_free.size()` (unsigned subtraction) -/
def size (a : Archetype α) : Nat := a.state.length - a.free.length

/-- `validateId` (Ecs.hh 1194-1203) -/
def validateId (a : Archetype α) (id : Nat) : Bool :=
  let index := id &&& EntityIndexMask
  if index ≥ a.state.length then false
  else
    let version := versionFromId id
    let stateVersion := versionFromState (a.state.getD index 0)
    let empty := emptyFromState (a.state.getD index 0)
    decide (index < a.state.length) && (version == stateVersion) && !empty

/-- `extractIndex` (Ecs.hh 1205-1216); `none` models returning `false`. -/
def extractIndex (a : Archetype α) (id : Nat) : Option Nat :=
  let index := id &&& EntityIndexMask
  if index ≥ a.state.length then none
  else if emptyFromState (a.state.getD index 0) then none
  else if versionFromId id == versionFromState (a.state.getD index 0) then some index
  else none

/-- Index (from the back, as the source searches) of the last occurrence of
`r` in `l`; helper for the `PopSpecificFree` search loop in `create`. -/
def lastIdxOf (l : List Nat) (r : Nat) : Option Nat :=
  match l.reverse.findIdx? (· == r) with
  | none => none
  | some j => some (l.length - 1 - j)

/-- The `CreateNew` branch of `create` (Ecs.hh 1011-1019): refuse to
reallocate when the storage is full, otherwise append the component
defaults to every column and push a fresh state byte
`EntityIndexVersionStart`. -/
def createNew (a : Archetype α) : Except Unit (Archetype α × Nat) :=
  if a.state.length = a.cap then .ok (a, EntityInvalidId)
  else
    let index := a.state.length
    let a' := { a with
      tuple := a.tuple.map (fun c => { c with cells := c.cells ++ [c.dflt] }),
      state := a.state ++ [EntityIndexVersionStart] }
    .ok (a', index ||| (a'.state.getD index 0 <<< EntityIndexVersionShift))

/-- The `PopLastFree` branch of `create` (Ecs.hh 1020-1026): reuse
`m_free.back()` and strip the empty bit from its state byte. -/
def popLastFree (a : Archetype α) : Except Unit (Archetype α × Nat) :=
  let index := a.free.getLast!
  let a' := { a with
    free := a.free.dropLast,
    state := a.state.set index (versionFromState (a.state.getD index 0)) }
  .ok (a', index ||| (a'.state.getD index 0 <<< EntityIndexVersionShift))

/-- The `PopSpecificFree` branch of `create` (Ecs.hh 1027-1040): scan
`m_free` from the back for the requested index, throw
`InvalidRequestedIndexException` when absent, else swap-remove it and strip
the empty bit from its state byte. -/
def popSpecificFree (a : Archetype α) (r : Nat) : Except Unit (Archetype α × Nat) :=
  match lastIdxOf a.free r with
  | none => .error ()
  | some i =>
    let a' := { a with
      free := (a.free.set i a.free.getLast!).dropLast,
      state := a.state.set r (versionFromState (a.state.getD r 0)) }
    .ok (a', r ||| (a'.state.getD r 0 <<< EntityIndexVersionShift))

/-- `create(requestedIndex)` (Ecs.hh 990-1049).  `requested = none` models
the default argument `EntityInvalidIndex`.  The result is `Except Unit`
because `PopSpecificFree` can throw `InvalidRequestedIndexException`; a
normal return carries the new archetype state and the returned id
(`EntityInvalidId` when the archetype is full). -/
def create (a : Archetype α) (requested : Option Nat) :
    Except Unit (Archetype α × Nat) :=
  match requested with
  | none => if a.free.isEmpty then a.createNew else a.popLastFree
  | some r => if r = a.state.length then a.createNew else a.popSpecificFree r

/-- `remove(id)` (Ecs.hh 1051-1065).  `preDestroy` has no effect on the
stored value; `ComponentCleaner` re-seats the cell to the archetype default
unless `ComponentFlagNoCleanComponent` is set. -/
def remove (a : Archetype α) (id : Nat) : Archetype α :=
  match a.extractIndex id with
  | none => a
  | some index =>
    let newVersion0 := versionFromState (a.state.getD index 0 + 1)
    let newVersion := if newVersion0 = 0 then 1 else newVersion0
    { a with
      state := a.state.set index (stateFromVersionAndEmpty newVersion true),
      free := a.free ++ [index],
      tuple := a.tuple.map (fun c =>
        if c.noClean then c else { c with cells := c.cells.set index c.dflt }) }

/-- `reset()` (Ecs.hh 1218-1232): clear every storage. -/
def reset (a : Archetype α) : Archetype α :=
  { a with
    tuple := a.tuple.map (fun c => { c with cells := [] }),
    state := [], free := [] }

/-- The loop of `detail::ArchetypeHelper::compress` (Ecs.hh 1371-1395),
with an explicit structural induction measure `fuel`.  Every iteration
consumes exactly one element of the free window `f` (the trailing-tombstone
branch from the back, the hole-fill branch from the front), so running the
loop with `fuel = f.length` is the loop itself; the `fuel = 0, f ≠ []`
branch is unreachable then.  `SetEntity` only feeds the moved component its
new handle and is modelled as having no effect on the stored bytes. -/
def compressLoopFuel [Inhabited α] :
    Nat → List Nat → List Nat → List (Column α) → List Nat × List (Column α)
  | _, [], st, cols => (st, cols)
  | 0, _ :: _, st, cols => (st, cols)
  | fuel + 1, f :: fs, st, cols =>
    let lastFree := (f :: fs).getLast (by simp)
    if lastFree = st.length - 1 then
      -- trailing tombstone: drop the free index and pop every storage
      compressLoopFuel fuel (f :: fs).dropLast st.dropLast
        (cols.map (fun c => { c with cells := c.cells.dropLast }))
    else
      -- hole fill: move the last cell into the lowest free index,
      -- mark the target state byte `false` (i.e. 0), pop the tails
      compressLoopFuel fuel fs ((st.set f 0).dropLast)
        (cols.map (fun c => { c with cells := (c.cells.set f c.cells.getLast!).dropLast }))

/-- The compression loop on the sorted free list. -/
def compressLoop [Inhabited α] (f : List Nat) (st : List Nat)
    (cols : List (Column α)) : List Nat × List (Column α) :=
  compressLoopFuel f.length f st cols

/-- `detail::ArchetypeHelper<true, ...>::compress` (Ecs.hh 1347-1399). -/
def compressFull [Inhabited α] (a : Archetype α) : Archetype α :=
  if a.free.isEmpty then a
  else if a.size = 0 then
    { a with
      free := [],
      state := [],
      tuple := a.tuple.map (fun c => { c with cells := [] }) }
  else
    let sorted := List.insertionSort (· ≤ ·) a.free
    { a with
      state := (compressLoop sorted a.state a.tuple).1,
      tuple := (compressLoop sorted a.state a.tuple).2,
      free := [] }

/-- `Archetype::compress` (Ecs.hh 1091-1094) dispatching on
`AllowCompression`; the `false` specialisation (Ecs.hh 1335-1345) only
clears everything when the live count is zero. -/
def compress [Inhabited α] (a : Archetype α) : Archetype α :=
  if a.allowCompression then compressFull a
  else if a.size = 0 then
    { a with
      free := [],
      state := [],
      tuple := a.tuple.map (fun c => { c with cells := [] }) }
  else a

/-- `createEntity` (Ecs.hh 1067-1070, helper at 1401-1409, `false`
specialisation at 1428-1431).  An `Entity` in the single-archetype view is
just its packed id; `none` is the empty entity.  The `SetEntity` hook only
hands components their own handle and is modelled as not changing cells. -/
def createEntity (a : Archetype α) : Archetype α × Option Nat :=
  if a.allowEntities then
    match a.create none with
    | .ok (a', id) => if id = EntityInvalidId then (a', none) else (a', some id)
    | .error _ => (a, none)      -- unreachable: `create none` never throws
  else (a, none)

/-- `duplicateEntity` (Ecs.hh 1072-1075, helper at 1411-1426, `false`
specialisation at 1433-1436), restricted to a source entity of this same
archetype (a foreign or empty handle returns the empty entity unchanged). -/
def duplicateEntity (a : Archetype α) (otherId : Nat) : Archetype α × Option Nat :=
  if a.allowEntities then
    match a.extractIndex otherId with
    | none => (a, none)
    | some otherIndex =>
      match a.create none with
      | .ok (a', id) =>
        if id = EntityInvalidId then (a', none)
        else
          let target := indexFromId id
          ({ a' with tuple := a'.tuple.map (fun c =>
              { c with cells := c.cells.set target (c.cells.getD otherIndex c.dflt) }) },
            some id)
      | .error _ => (a, none)    -- unreachable: `create none` never throws
  else (a, none)

/-- `enlarge()` (Ecs.hh 1096-1102): `reserve(capacity() * 2)`; `reserve`
reallocates only for growable storage (`storage::Array::reserve` is a
no-op). -/
def enlarge (a : Archetype α) : Archetype α :=
  if a.growable then { a with cap := a.cap * 2 } else a

/-- A freshly constructed archetype (the constructor, Ecs.hh 943-973):
all storages empty.  For `storage::Vector` the initial capacity is 0 until
`reserve` is called; `cap` is left as a parameter so that one model covers
`Vector`-after-`reserve` and `Array<N>` alike. -/
def mk0 (id flags : Nat) (growable : Bool) (cols : List (Column α))
    (cap : Nat) : Archetype α :=
  { id := id, flags := flags, growable := growable,
    tuple := cols.map (fun c => { c with cells := [] }),
    state := [], free := [], cap := cap }

end Archetype


/-! ## Arithmetic characterisations of the packing helpers -/

theorem versionFromState_eq (s : Nat) : versionFromState s = s % 128 := by
  have : EntityIndexVersionMask >>> EntityIndexVersionShift = 2 ^ 7 - 1 := by decide
  rw [versionFromState, this, Nat.and_pow_two_sub_one_eq_mod]

theorem emptyFromState_iff (s : Nat) : emptyFromState s = true ↔ 128 ≤ s := by
  have h : s >>> EntityIndexVersionBitLength = s / 128 := by
    rw [Nat.shiftRight_eq_div_pow]; norm_num [EntityIndexVersionBitLength]
  constructor
  · intro hs
    by_contra hlt
    push_neg at hlt
    simp [emptyFromState, h, Nat.div_eq_of_lt hlt] at hs
  · intro hs
    have : 0 < s / 128 := Nat.div_pos hs (by norm_num)
    simp [emptyFromState, h]
    omega

theorem emptyFromState_false_iff (s : Nat) : emptyFromState s = false ↔ s < 128 := by
  rw [← Bool.not_eq_true, not_iff_comm, emptyFromState_iff]
  omega

theorem indexFromId_eq (id : Nat) : indexFromId id = id % 2 ^ 24 := by
  have : EntityIndexMask = 2 ^ 24 - 1 := by decide
  rw [indexFromId, this, Nat.and_pow_two_sub_one_eq_mod]

theorem shiftRight_lor (x y k : Nat) : (x ||| y) >>> k = (x >>> k) ||| (y >>> k) := by
  apply Nat.eq_of_testBit_eq
  intro j
  simp [Nat.testBit_shiftRight, Nat.testBit_lor]

theorem land_shiftLeft_shiftRight (x m k : Nat) :
    (x &&& m <<< k) >>> k = (x >>> k) &&& m := by
  apply Nat.eq_of_testBit_eq
  intro j
  have e1 : k ≤ k + j := Nat.le_add_right _ _
  have e2 : k + j - k = j := by omega
  simp [Nat.testBit_shiftRight, Nat.testBit_land, Nat.testBit_shiftLeft, e1, e2]

theorem versionFromId_eq (id : Nat) : versionFromId id = id / 2 ^ 24 % 128 := by
  have hm : EntityIndexVersionMask = 127 <<< 24 := by decide
  have h127 : (127 : Nat) = 2 ^ 7 - 1 := by norm_num
  rw [versionFromId, hm]
  show (id &&& 127 <<< 24) >>> 24 = id / 2 ^ 24 % 128
  rw [land_shiftLeft_shiftRight, h127, Nat.and_pow_two_sub_one_eq_mod,
    Nat.shiftRight_eq_div_pow]

theorem lor_shiftLeft_eq_add (a b k : Nat) (h : a < 2 ^ k) :
    a ||| b <<< k = a + b * 2 ^ k := by
  have hmod : (a ||| b <<< k) % 2 ^ k = a := by
    rw [← Nat.and_pow_two_sub_one_eq_mod, Nat.and_distrib_right,
      Nat.and_pow_two_sub_one_eq_mod, Nat.and_pow_two_sub_one_eq_mod,
      Nat.mod_eq_of_lt h, Nat.shiftLeft_eq, Nat.mul_mod_left]
    simp
  have hdiv : (a ||| b <<< k) / 2 ^ k = b := by
    rw [← Nat.shiftRight_eq_div_pow, shiftRight_lor, Nat.shiftLeft_shiftRight,
      Nat.shiftRight_eq_div_pow, Nat.div_eq_of_lt h]
    simp
  calc a ||| b <<< k = 2 ^ k * ((a ||| b <<< k) / 2 ^ k) + (a ||| b <<< k) % 2 ^ k :=
        (Nat.div_add_mod _ _).symm
    _ = a + b * 2 ^ k := by rw [hmod, hdiv]; ring

/-- Building an id from an in-range index and version and taking it apart. -/
theorem id_decompose (index version : Nat) (hi : index < 2 ^ 24) :
    indexFromId (index ||| version <<< EntityIndexVersionShift) = index ∧
    versionFromId (index ||| version <<< EntityIndexVersionShift) = version % 128 := by
  have h24 : EntityIndexVersionShift = 24 := rfl
  rw [h24, lor_shiftLeft_eq_add _ _ _ hi]
  constructor
  · rw [indexFromId_eq, Nat.add_mul_mod_self_right, Nat.mod_eq_of_lt hi]
  · rw [versionFromId_eq, Nat.add_mul_div_right _ _ (by norm_num : (0:Nat) < 2 ^ 24),
      Nat.div_eq_of_lt hi, Nat.zero_add]

theorem stateFromVersionAndEmpty_true (v : Nat) (h : v < 128) :
    stateFromVersionAndEmpty v true = v + 128 := by
  have : stateFromVersionAndEmpty v true = v ||| 1 <<< 7 := rfl
  rw [this, lor_shiftLeft_eq_add _ _ _ (by omega : v < 2 ^ 7)]
  norm_num

theorem stateFromVersionAndEmpty_false (v : Nat) :
    stateFromVersionAndEmpty v false = v := by
  have : stateFromVersionAndEmpty v false = v ||| 0 <<< 7 := rfl
  rw [this]
  simp [Nat.shiftLeft_eq]

/-! ## The slot-table invariant -/

/-- The number of live (non-tombstoned) slots of a state table. -/
def liveCount (st : List Nat) : Nat :=
  (st.filter (fun s => !emptyFromState s)).length

/-- The slot-table invariant of an archetype (spec section 3.3), together
with the auxiliary facts needed to maintain it: the free list holds
in-range, duplicate-free indices; a slot is tombstoned exactly when its
index is on the free list; state bytes fit in `uint8`; tombstoned slots
carry a non-zero version; all columns run parallel to the state table. -/
structure SlotInv (a : Archetype α) : Prop where
  lenCap : a.state.length ≤ a.cap
  freeBound : ∀ i ∈ a.free, i < a.state.length
  freeNodup : a.free.Nodup
  tombIff : ∀ i, (h : i < a.state.length) → (emptyFromState a.state[i] = true ↔ i ∈ a.free)
  stateLt : ∀ s ∈ a.state, s < 256
  tombVersionPos : ∀ s ∈ a.state, emptyFromState s = true → versionFromState s ≠ 0
  colLen : ∀ c ∈ a.tuple, c.cells.length = a.state.length

theorem countP_eq_length_filter_range (st : List Nat) (p : Nat → Bool) :
    st.countP p = ((List.range st.length).filter (fun i => p (st.getD i 0))).length := by
  induction st with
  | nil => simp
  | cons s t ih =>
    rw [List.countP_cons, List.length_cons, List.range_succ_eq_map]
    rw [List.filter_cons]
    have hmap : (List.filter (fun i => p ((s :: t).getD i 0)) ((List.range t.length).map Nat.succ)).length
        = (List.filter (fun i => p (t.getD i 0)) (List.range t.length)).length := by
      rw [List.filter_map]
      rw [List.length_map]
      congr 1
    by_cases hp : p s
    · simp only [List.getD_cons_zero, hp, if_true, List.length_cons]
      rw [hmap, ih]
    · simp only [List.getD_cons_zero, hp, Bool.false_eq_true, if_false]
      rw [hmap, ih]
      omega

theorem getD_eq_getElem (l : List Nat) (i : Nat) (h : i < l.length) :
    l.getD i 0 = l[i] := by
  simp [List.getD_eq_getElem?_getD, List.getElem?_eq_getElem h]

/-- Under the invariant the free list is a duplicate-free enumeration of
the tombstoned indices, so its length counts them. -/
theorem free_length_eq_countP {a : Archetype α} (hInv : SlotInv a) :
    a.free.length = a.state.countP emptyFromState := by
  rw [countP_eq_length_filter_range]
  have hperm : a.free.Perm
      ((List.range a.state.length).filter (fun i => emptyFromState (a.state.getD i 0))) := by
    rw [List.perm_ext_iff_of_nodup hInv.freeNodup
      (List.Nodup.filter _ (List.nodup_range _))]
    intro i
    simp only [List.mem_filter, List.mem_range]
    constructor
    · intro hi
      have hlt := hInv.freeBound i hi
      refine ⟨hlt, ?_⟩
      rw [getD_eq_getElem _ _ hlt]
      exact (hInv.tombIff i hlt).mpr hi
    · rintro ⟨hlt, hq⟩
      rw [getD_eq_getElem _ _ hlt] at hq
      exact (hInv.tombIff i hlt).mp hq
  exact hperm.length_eq

/-- Under the invariant, `size()` is the number of live slots. -/
theorem liveCount_eq_size {a : Archetype α} (hInv : SlotInv a) :
    liveCount a.state = a.state.length - a.free.length := by
  rw [free_length_eq_countP hInv, liveCount, ← List.countP_eq_length_filter]
  have h := List.length_eq_countP_add_countP emptyFromState a.state
  have e : (List.countP (fun a => decide ¬emptyFromState a = true) a.state)
      = List.countP (fun s => !emptyFromState s) a.state := by
    apply List.countP_congr
    intro x _
    simp
  omega

/-! ## List helpers for the free-list operations -/

theorem getLast!_eq_getLast {l : List Nat} (h : l ≠ []) : l.getLast! = l.getLast h :=
  List.getLast!_of_getLast? (List.getLast?_eq_getLast l h)

/-- The swap-with-last removal `m_free[i] = m_free.back(); m_free.pop_back()`
is a permutation of erasing index `i`. -/
theorem swapRemove_perm (l : List Nat) (i : Nat) (hi : i < l.length) :
    ((l.set i l.getLast!).dropLast).Perm (l.eraseIdx i) := by
  have hne : l ≠ [] := List.ne_nil_of_length_pos (by omega)
  rw [getLast!_eq_getLast hne]
  rcases Nat.lt_or_ge i (l.length - 1) with hlt | hge
  · -- i is not the last position
    have hset : l.set i (l.getLast hne) =
        l.take i ++ l.getLast hne :: l.drop (i + 1) := by
      rw [List.set_eq_take_append_cons_drop]
      simp [hi]
    have hdne : l.drop (i + 1) ≠ [] := by
      apply List.ne_nil_of_length_pos
      rw [List.length_drop]
      omega
    have hlast : l.getLast hne = (l.drop (i + 1)).getLast hdne :=
      (List.getLast_drop hdne).symm
    rw [hset, List.eraseIdx_eq_take_drop_succ]
    have hcne : l.getLast hne :: l.drop (i + 1) ≠ [] := by simp
    rw [List.dropLast_append_of_ne_nil _ hcne,
      List.dropLast_cons_of_ne_nil hdne]
    apply List.Perm.append_left
    rw [hlast]
    have hback := List.dropLast_append_getLast hdne
    calc ((l.drop (i + 1)).getLast hdne :: (l.drop (i + 1)).dropLast).Perm
          ((l.drop (i + 1)).dropLast ++ [(l.drop (i + 1)).getLast hdne]) :=
        (List.perm_append_singleton _ _).symm
      _ = l.drop (i + 1) := hback
  · -- i is the last position
    have hieq : i = l.length - 1 := by omega
    have hset : l.set i (l.getLast hne) = l.take i ++ [l.getLast hne] := by
      rw [List.set_eq_take_append_cons_drop]
      have : l.drop (i + 1) = [] := by
        apply List.eq_nil_of_length_eq_zero
        rw [List.length_drop]
        omega
      simp [hi, this]
    rw [hset, List.dropLast_concat, List.eraseIdx_eq_take_drop_succ]
    have : l.drop (i + 1) = [] := by
      apply List.eq_nil_of_length_eq_zero
      rw [List.length_drop]
      omega
    rw [this, List.append_nil]

/-- What `lastIdxOf` returning a hit means. -/
theorem lastIdxOf_spec {l : List Nat} {r i : Nat}
    (h : Archetype.lastIdxOf l r = some i) :
    i < l.length ∧ l.getD i 0 = r := by
  unfold Archetype.lastIdxOf at h
  cases hf : l.reverse.findIdx? (· == r) with
  | none => rw [hf] at h; exact absurd h (by simp)
  | some j =>
    rw [hf] at h
    simp only [Option.some.injEq] at h
    obtain ⟨hjlt, hp, -⟩ := List.findIdx?_eq_some_iff_getElem.mp hf
    have hjl : j < l.length := by rw [List.length_reverse] at hjlt; exact hjlt
    have hil : i < l.length := by omega
    refine ⟨hil, ?_⟩
    rw [getD_eq_getElem _ _ hil]
    rw [List.getElem_reverse] at hp
    have hidx : l.length - 1 - j = i := h
    simp only [hidx] at hp
    exact beq_iff_eq.mp hp

/-! ## `getD` bridging lemmas -/

theorem getD_set_ne (l : List Nat) (i j v : Nat) (h : i ≠ j) :
    (l.set i v).getD j 0 = l.getD j 0 := by
  simp [List.getD_eq_getElem?_getD, List.getElem?_set_ne h]

theorem getD_set_self (l : List Nat) (i v : Nat) (h : i < l.length) :
    (l.set i v).getD i 0 = v := by
  simp [List.getD_eq_getElem?_getD, List.getElem?_set_self h]

theorem getD_append_left (l l₂ : List Nat) (j : Nat) (h : j < l.length) :
    (l ++ l₂).getD j 0 = l.getD j 0 := by
  simp [List.getD_eq_getElem?_getD, List.getElem?_append_left h]

theorem getD_oob (l : List Nat) (j : Nat) (h : l.length ≤ j) :
    l.getD j 0 = 0 := by
  simp [List.getD_eq_getElem?_getD, List.getElem?_eq_none h]

theorem lor_eq_zero_iff (a b : Nat) : a ||| b = 0 ↔ a = 0 ∧ b = 0 := by
  constructor
  · intro h
    constructor
    · apply Nat.eq_of_testBit_eq; intro j
      have := congrArg (fun n => n.testBit j) h
      simp [Nat.testBit_lor] at this
      simp [this.1]
    · apply Nat.eq_of_testBit_eq; intro j
      have := congrArg (fun n => n.testBit j) h
      simp [Nat.testBit_lor] at this
      simp [this.2]
  · rintro ⟨rfl, rfl⟩
    rfl

/-! ## What a successful `create` does -/

/-- The contract of a successful `create` call: the invariant is preserved,
registration data is untouched, and either the call reported a full
archetype and changed nothing, or it handed out an id packing an in-range
slot index (fresh tail slot or popped free index) with that slot's live,
non-zero version byte, leaving every other state byte alone. -/
def CreateSpec (a a' : Archetype α) (id : Nat) : Prop :=
  SlotInv a' ∧ a'.cap = a.cap ∧ a'.flags = a.flags ∧ a'.growable = a.growable ∧
  a'.id = a.id ∧ a.state.length ≤ a'.state.length ∧
  ((id = EntityInvalidId ∧ a' = a) ∨
   (id ≠ EntityInvalidId ∧ ∃ index,
      (index = a.state.length ∨ index ∈ a.free) ∧
      index < a'.state.length ∧
      id = index ||| (a'.state.getD index 0 <<< EntityIndexVersionShift) ∧
      a'.state.getD index 0 < 128 ∧
      a'.state.getD index 0 ≠ 0 ∧
      (∀ j, j ≠ index → a'.state.getD j 0 = a.state.getD j 0)))

theorem createNew_spec {a a' : Archetype α} {id : Nat}
    (hInv : SlotInv a) (h : a.createNew = .ok (a', id)) :
    CreateSpec a a' id := by
  unfold Archetype.createNew at h
  by_cases hfull : a.state.length = a.cap
  · simp only [hfull, if_true, Except.ok.injEq, Prod.mk.injEq] at h
    obtain ⟨rfl, rfl⟩ := h
    exact ⟨hInv, rfl, rfl, rfl, rfl, le_refl _, Or.inl ⟨rfl, rfl⟩⟩
  · simp only [hfull, if_false, Except.ok.injEq, Prod.mk.injEq] at h
    obtain ⟨rfl, rfl⟩ := h
    have hlen : a.state.length < a.cap := lt_of_le_of_ne hInv.lenCap hfull
    have hget1 : (a.state ++ [EntityIndexVersionStart]).getD a.state.length 0 = 1 := by
      simp [List.getD_eq_getElem?_getD, List.getElem?_append_right (le_refl _)]
      rfl
    refine ⟨?_, rfl, rfl, rfl, rfl, by simp, Or.inr ⟨?_, a.state.length, Or.inl rfl, ?_, ?_, ?_, ?_, ?_⟩⟩
    · constructor
      · simpa using hlen
      · intro i hi
        have := hInv.freeBound i hi
        simp only [List.length_append, List.length_cons, List.length_nil]
        omega
      · exact hInv.freeNodup
      · intro i hilt
        simp only [List.length_append, List.length_cons, List.length_nil] at hilt
        by_cases hi : i < a.state.length
        · rw [List.getElem_append_left hi]
          exact hInv.tombIff i hi
        · have hieq : i = a.state.length := by omega
          rw [List.getElem_concat_length _ _ _ hieq]
          constructor
          · intro he
            exact absurd he (by decide)
          · intro hmem
            have := hInv.freeBound i hmem
            omega
      · intro s hs
        rcases List.mem_append.mp hs with hs | hs
        · exact hInv.stateLt s hs
        · simp only [List.mem_singleton] at hs
          subst hs
          decide
      · intro s hs he
        rcases List.mem_append.mp hs with hs | hs
        · exact hInv.tombVersionPos s hs he
        · simp only [List.mem_singleton] at hs
          subst hs
          exact absurd he (by decide)
      · intro c hc
        simp only [List.mem_map] at hc
        obtain ⟨c0, hc0, rfl⟩ := hc
        simp [hInv.colLen c0 hc0]
    · -- id ≠ 0
      intro h0
      rw [hget1] at h0
      rcases (lor_eq_zero_iff _ _).mp h0 with ⟨-, hbad⟩
      exact absurd hbad (by decide)
    · simp
    · rfl
    · rw [hget1]; decide
    · rw [hget1]; decide
    · intro j hj
      by_cases hjl : j < a.state.length
      · exact getD_append_left _ _ _ hjl
      · rw [getD_oob a.state j (by omega), getD_oob]
        simp only [List.length_append, List.length_cons, List.length_nil]
        omega

theorem popLastFree_spec {a a' : Archetype α} {id : Nat}
    (hInv : SlotInv a) (hne : a.free ≠ []) (h : a.popLastFree = .ok (a', id)) :
    CreateSpec a a' id := by
  unfold Archetype.popLastFree at h
  simp only [Except.ok.injEq, Prod.mk.injEq] at h
  obtain ⟨rfl, rfl⟩ := h
  set index := a.free.getLast! with hidx
  have hmem : index ∈ a.free := by
    rw [hidx, getLast!_eq_getLast hne]
    exact List.getLast_mem hne
  have hlt : index < a.state.length := hInv.freeBound index hmem
  have hgd : a.state.getD index 0 = a.state[index] := getD_eq_getElem _ _ hlt
  have hempty : emptyFromState (a.state.getD index 0) = true := by
    rw [hgd]
    exact (hInv.tombIff index hlt).mpr hmem
  have hvpos : versionFromState (a.state.getD index 0) ≠ 0 := by
    rw [hgd]
    exact hInv.tombVersionPos _ (List.getElem_mem hlt)
      (by rw [← hgd]; exact hempty)
  have hnew : (a.state.set index (versionFromState (a.state.getD index 0))).getD index 0
      = versionFromState (a.state.getD index 0) := getD_set_self _ _ _ hlt
  have hv128 : versionFromState (a.state.getD index 0) < 128 := by
    rw [versionFromState_eq]
    exact Nat.mod_lt _ (by norm_num)
  have hfdecomp : a.free.dropLast ++ [index] = a.free := by
    rw [hidx, getLast!_eq_getLast hne]
    exact List.dropLast_append_getLast hne
  have hnotdl : index ∉ a.free.dropLast := by
    intro hmem'
    have hnd := hInv.freeNodup
    rw [← hfdecomp] at hnd
    rcases List.nodup_append.mp hnd with ⟨-, -, hdisj⟩
    exact hdisj hmem' (by simp)
  have hmemdl : ∀ x, x ∈ a.free.dropLast ↔ (x ∈ a.free ∧ x ≠ index) := by
    intro x
    constructor
    · intro hx
      refine ⟨(List.dropLast_sublist a.free).mem hx, ?_⟩
      intro hxe
      subst hxe
      exact hnotdl hx
    · rintro ⟨hx, hxne⟩
      rw [← hfdecomp] at hx
      rcases List.mem_append.mp hx with hx | hx
      · exact hx
      · simp only [List.mem_singleton] at hx
        exact absurd hx hxne
  refine ⟨?_, rfl, rfl, rfl, rfl, by simp, Or.inr ⟨?_, index, Or.inr hmem, ?_, rfl, ?_, ?_, ?_⟩⟩
  · constructor
    · simpa using hInv.lenCap
    · intro i hi
      rw [hmemdl] at hi
      simp only [List.length_set]
      exact hInv.freeBound i hi.1
    · exact List.Nodup.sublist (List.dropLast_sublist _) hInv.freeNodup
    · intro i hilt
      simp only [List.length_set] at hilt
      rw [← getD_eq_getElem _ _ (by simpa using hilt)]
      by_cases hie : i = index
      · rw [hie, hnew]
        constructor
        · intro he
          rw [emptyFromState_iff] at he
          omega
        · intro hmem'
          exact absurd hmem' hnotdl
      · rw [getD_set_ne _ _ _ _ (fun he => hie he.symm), getD_eq_getElem _ _ hilt,
          hmemdl]
        constructor
        · intro he
          exact ⟨(hInv.tombIff i hilt).mp he, hie⟩
        · rintro ⟨hmem', -⟩
          exact (hInv.tombIff i hilt).mpr hmem'
    · intro s hs
      rcases List.mem_or_eq_of_mem_set hs with hs | hs
      · exact hInv.stateLt s hs
      · subst hs; omega
    · intro s hs he
      rcases List.mem_or_eq_of_mem_set hs with hs | hs
      · exact hInv.tombVersionPos s hs he
      · subst hs
        rw [emptyFromState_iff] at he
        omega
    · intro c hc
      simp only [List.length_set]
      exact hInv.colLen c hc
  · -- id ≠ 0
    intro h0
    rcases (lor_eq_zero_iff _ _).mp h0 with ⟨-, hbad⟩
    rw [hnew, Nat.shiftLeft_eq] at hbad
    rcases Nat.mul_eq_zero.mp hbad with h' | h'
    · exact hvpos h'
    · exact absurd h' (by norm_num)
  · simpa using hlt
  · rw [hnew]; exact hv128
  · rw [hnew]; exact hvpos
  · intro j hj
    exact getD_set_ne _ _ _ _ (fun he => hj he.symm)

theorem popSpecificFree_spec {a a' : Archetype α} {r id : Nat}
    (hInv : SlotInv a) (h : a.popSpecificFree r = .ok (a', id)) :
    CreateSpec a a' id := by
  unfold Archetype.popSpecificFree at h
  cases hfind : Archetype.lastIdxOf a.free r with
  | none => rw [hfind] at h; exact absurd h (by simp)
  | some i =>
    rw [hfind] at h
    simp only [Except.ok.injEq, Prod.mk.injEq] at h
    obtain ⟨rfl, rfl⟩ := h
    obtain ⟨hi, hir⟩ := lastIdxOf_spec hfind
    have hrget : a.free[i] = r := by rw [← getD_eq_getElem _ _ hi]; exact hir
    have hmem : r ∈ a.free := hrget ▸ List.getElem_mem hi
    have hlt : r < a.state.length := hInv.freeBound r hmem
    have hgd : a.state.getD r 0 = a.state[r] := getD_eq_getElem _ _ hlt
    have hempty : emptyFromState (a.state.getD r 0) = true := by
      rw [hgd]
      exact (hInv.tombIff r hlt).mpr hmem
    have hvpos : versionFromState (a.state.getD r 0) ≠ 0 := by
      rw [hgd]
      exact hInv.tombVersionPos _ (List.getElem_mem hlt)
        (by rw [← hgd]; exact hempty)
    have hnew : (a.state.set r (versionFromState (a.state.getD r 0))).getD r 0
        = versionFromState (a.state.getD r 0) := getD_set_self _ _ _ hlt
    have hv128 : versionFromState (a.state.getD r 0) < 128 := by
      rw [versionFromState_eq]
      exact Nat.mod_lt _ (by norm_num)
    have hperm := swapRemove_perm a.free i hi
    have hnodup : ((a.free.set i a.free.getLast!).dropLast).Nodup :=
      hperm.nodup_iff.mpr (hInv.freeNodup.eraseIdx i)
    have hmemf : ∀ x, x ∈ (a.free.set i a.free.getLast!).dropLast ↔
        (x ∈ a.free ∧ x ≠ r) := by
      intro x
      rw [hperm.mem_iff, List.mem_eraseIdx_iff_getElem]
      constructor
      · rintro ⟨k, hk, hki, hkx⟩
        subst hkx
        refine ⟨List.getElem_mem hk, ?_⟩
        intro hxr
        apply hki
        have hge : a.free.get ⟨k, hk⟩ = a.free.get ⟨i, hi⟩ := by
          simp only [List.get_eq_getElem]
          rw [hrget, hxr]
        have hfin := List.nodup_iff_injective_get.mp hInv.freeNodup hge
        simpa using hfin
      · rintro ⟨hx, hxr⟩
        obtain ⟨k, hk, hkx⟩ := List.mem_iff_getElem.mp hx
        refine ⟨k, hk, ?_, hkx⟩
        intro hki
        subst hki
        rw [hkx] at hrget
        exact hxr hrget
    refine ⟨?_, rfl, rfl, rfl, rfl, by simp, Or.inr ⟨?_, r, Or.inr hmem, ?_, rfl, ?_, ?_, ?_⟩⟩
    · constructor
      · simpa using hInv.lenCap
      · intro x hx
        rw [hmemf] at hx
        simp only [List.length_set]
        exact hInv.freeBound x hx.1
      · exact hnodup
      · intro j hjlt
        simp only [List.length_set] at hjlt
        rw [← getD_eq_getElem _ _ (by simpa using hjlt)]
        by_cases hje : j = r
        · rw [hje, hnew]
          constructor
          · intro he
            rw [emptyFromState_iff] at he
            omega
          · intro hmem'
            rw [hmemf] at hmem'
            exact absurd rfl hmem'.2
        · rw [getD_set_ne _ _ _ _ (fun he => hje he.symm), getD_eq_getElem _ _ hjlt,
            hmemf]
          constructor
          · intro he
            exact ⟨(hInv.tombIff j hjlt).mp he, hje⟩
          · rintro ⟨hmem', -⟩
            exact (hInv.tombIff j hjlt).mpr hmem'
      · intro s hs
        rcases List.mem_or_eq_of_mem_set hs with hs | hs
        · exact hInv.stateLt s hs
        · subst hs; omega
      · intro s hs he
        rcases List.mem_or_eq_of_mem_set hs with hs | hs
        · exact hInv.tombVersionPos s hs he
        · subst hs
          rw [emptyFromState_iff] at he
          omega
      · intro c hc
        simp only [List.length_set]
        exact hInv.colLen c hc
    · intro h0
      rcases (lor_eq_zero_iff _ _).mp h0 with ⟨-, hbad⟩
      rw [hnew, Nat.shiftLeft_eq] at hbad
      rcases Nat.mul_eq_zero.mp hbad with h' | h'
      · exact hvpos h'
      · exact absurd h' (by norm_num)
    · simpa using hlt
    · rw [hnew]; exact hv128
    · rw [hnew]; exact hvpos
    · intro j hj
      exact getD_set_ne _ _ _ _ (fun he => hj he.symm)

/-- A successful `create` satisfies its contract. -/
theorem create_spec {a : Archetype α} {req : Option Nat} {a' : Archetype α} {id : Nat}
    (hInv : SlotInv a) (h : a.create req = .ok (a', id)) :
    CreateSpec a a' id := by
  unfold Archetype.create at h
  cases req with
  | none =>
    simp only at h
    by_cases hfe : a.free.isEmpty
    · rw [if_pos hfe] at h
      exact createNew_spec hInv h
    · rw [if_neg hfe] at h
      exact popLastFree_spec hInv (by simpa using hfe) h
  | some r =>
    simp only at h
    by_cases hr : r = a.state.length
    · rw [if_pos hr] at h
      exact createNew_spec hInv h
    · rw [if_neg hr] at h
      exact popSpecificFree_spec hInv h

/-- `create` with the default argument never throws. -/
theorem create_none_ne_error (a : Archetype α) :
    a.create none ≠ .error () := by
  unfold Archetype.create Archetype.createNew Archetype.popLastFree
  by_cases hfe : a.free.isEmpty
  · rw [if_pos hfe]
    by_cases hfull : a.state.length = a.cap
    · simp [hfull]
    · simp [hfull]
  · rw [if_neg hfe]
    simp

/-! ## `extractIndex` and `validateId` characterised -/

theorem extractIndex_eq_some_iff {a : Archetype α} {id index : Nat} :
    a.extractIndex id = some index ↔
      (index = indexFromId id ∧ index < a.state.length ∧
       emptyFromState (a.state.getD index 0) = false ∧
       versionFromId id = versionFromState (a.state.getD index 0)) := by
  unfold Archetype.extractIndex
  have hidx : id &&& EntityIndexMask = indexFromId id := rfl
  rw [hidx]
  by_cases h1 : indexFromId id ≥ a.state.length
  · rw [if_pos h1]
    constructor
    · intro h
      exact absurd h (by simp)
    · rintro ⟨rfl, h2, -⟩
      omega
  · rw [if_neg h1]
    push_neg at h1
    by_cases h2 : emptyFromState (a.state.getD (indexFromId id) 0) = true
    · rw [if_pos h2]
      constructor
      · intro h
        exact absurd h (by simp)
      · rintro ⟨rfl, -, hne, -⟩
        rw [h2] at hne
        exact absurd hne (by simp)
    · rw [if_neg h2]
      by_cases h3 : versionFromId id == versionFromState (a.state.getD (indexFromId id) 0)
      · rw [if_pos h3]
        simp only [Option.some.injEq]
        constructor
        · intro h
          subst h
          exact ⟨rfl, h1, by simpa using h2, by simpa using h3⟩
        · rintro ⟨rfl, -⟩
          rfl
      · rw [if_neg h3]
        constructor
        · intro h
          exact absurd h (by simp)
        · rintro ⟨rfl, -, -, hv⟩
          exact absurd (by simpa using hv) h3

theorem validateId_eq_true_iff {a : Archetype α} {id : Nat} :
    a.validateId id = true ↔
      (indexFromId id < a.state.length ∧
       emptyFromState (a.state.getD (indexFromId id) 0) = false ∧
       versionFromId id = versionFromState (a.state.getD (indexFromId id) 0)) := by
  unfold Archetype.validateId
  have hidx : id &&& EntityIndexMask = indexFromId id := rfl
  rw [hidx]
  by_cases h1 : indexFromId id ≥ a.state.length
  · rw [if_pos h1]
    constructor
    · intro h
      exact absurd h (by simp)
    · rintro ⟨h2, -⟩
      omega
  · rw [if_neg h1]
    push_neg at h1
    simp only [Bool.and_eq_true, decide_eq_true_eq, beq_iff_eq, Bool.not_eq_eq_eq_not,
      Bool.not_true]
    constructor
    · rintro ⟨⟨-, hv⟩, he⟩
      exact ⟨h1, by simpa using he, hv⟩
    · rintro ⟨-, he, hv⟩
      exact ⟨⟨h1, hv⟩, by simpa using he⟩

/-- `validateId` and `extractIndex` agree. -/
theorem validateId_iff_extractIndex {a : Archetype α} {id : Nat} :
    a.validateId id = true ↔ a.extractIndex id = some (indexFromId id) := by
  rw [validateId_eq_true_iff, extractIndex_eq_some_iff]
  constructor
  · rintro ⟨h1, h2, h3⟩
    exact ⟨rfl, h1, h2, h3⟩
  · rintro ⟨-, h1, h2, h3⟩
    exact ⟨h1, h2, h3⟩

/-! ## What `remove` does -/

theorem remove_spec {a : Archetype α} (id : Nat) (hInv : SlotInv a) :
    SlotInv (a.remove id) ∧
    (a.remove id).cap = a.cap ∧ (a.remove id).flags = a.flags ∧
    (a.remove id).growable = a.growable ∧ (a.remove id).id = a.id ∧
    (a.remove id).state.length = a.state.length ∧
    (a.extractIndex id = none → a.remove id = a) ∧
    (∀ index, a.extractIndex id = some index →
      (a.remove id).free = a.free ++ [index] ∧
      (a.remove id).state.getD index 0 =
        stateFromVersionAndEmpty
          (if versionFromState (a.state.getD index 0 + 1) = 0 then 1
           else versionFromState (a.state.getD index 0 + 1)) true ∧
      (∀ j, j ≠ index → (a.remove id).state.getD j 0 = a.state.getD j 0)) := by
  unfold Archetype.remove
  cases hext : a.extractIndex id with
  | none =>
    exact ⟨hInv, rfl, rfl, rfl, rfl, rfl, fun _ => rfl, fun index h =>
      Option.noConfusion h⟩
  | some index =>
    dsimp only
    obtain ⟨hieq, hlt, hlive, hver⟩ := extractIndex_eq_some_iff.mp hext
    have hnotfree : index ∉ a.free := by
      intro hmem
      have := (hInv.tombIff index hlt).mpr hmem
      rw [← getD_eq_getElem _ _ hlt] at this
      rw [hlive] at this
      exact absurd this (by simp)
    set v0 := versionFromState (a.state.getD index 0 + 1) with hv0
    set v1 := if v0 = 0 then 1 else v0 with hv1
    have hv1pos : v1 ≠ 0 := by
      rw [hv1]
      by_cases h : v0 = 0 <;> simp [h]
    have hv1lt : v1 < 128 := by
      rw [hv1]
      by_cases h : v0 = 0
      · simp [h]
      · rw [if_neg h, hv0, versionFromState_eq]
        exact Nat.mod_lt _ (by norm_num)
    have hbyte : stateFromVersionAndEmpty v1 true = v1 + 128 :=
      stateFromVersionAndEmpty_true _ hv1lt
    have hbyteEmpty : emptyFromState (stateFromVersionAndEmpty v1 true) = true := by
      rw [hbyte, emptyFromState_iff]
      omega
    have hbyteVer : versionFromState (stateFromVersionAndEmpty v1 true) = v1 := by
      rw [hbyte, versionFromState_eq]
      omega
    refine ⟨?_, rfl, rfl, rfl, rfl, by simp, ?_, ?_⟩
    · constructor
      · simpa using hInv.lenCap
      · intro i hi
        rcases List.mem_append.mp hi with hi | hi
        · simpa using hInv.freeBound i hi
        · simp only [List.mem_singleton] at hi
          subst hi
          simpa using hlt
      · rw [List.nodup_append]
        refine ⟨hInv.freeNodup, List.nodup_singleton _, ?_⟩
        intro x hx hx'
        simp only [List.mem_singleton] at hx'
        subst hx'
        exact hnotfree hx
      · intro i hilt
        simp only [List.length_set] at hilt
        rw [← getD_eq_getElem _ _ (by simpa using hilt)]
        by_cases hie : i = index
        · subst hie
          rw [getD_set_self _ _ _ hlt, hbyteEmpty]
          simp
        · rw [getD_set_ne _ _ _ _ (fun he => hie he.symm), getD_eq_getElem _ _ hilt]
          rw [List.mem_append]
          constructor
          · intro he
            exact Or.inl ((hInv.tombIff i hilt).mp he)
          · rintro (hmem | hmem)
            · exact (hInv.tombIff i hilt).mpr hmem
            · simp only [List.mem_singleton] at hmem
              exact absurd hmem hie
      · intro s hs
        rcases List.mem_or_eq_of_mem_set hs with hs | hs
        · exact hInv.stateLt s hs
        · subst hs
          rw [hbyte]
          omega
      · intro s hs he
        rcases List.mem_or_eq_of_mem_set hs with hs | hs
        · exact hInv.tombVersionPos s hs he
        · subst hs
          rw [hbyteVer]
          exact hv1pos
      · intro c hc
        simp only [List.mem_map] at hc
        obtain ⟨c0, hc0, rfl⟩ := hc
        by_cases h : c0.noClean <;> simp [h, hInv.colLen c0 hc0]
    · intro hnone
      exact Option.noConfusion hnone
    · intro index' h'
      simp only [Option.some.injEq] at h'
      subst h'
      refine ⟨rfl, ?_, ?_⟩
      · exact getD_set_self _ _ _ hlt
      · intro j hj
        exact getD_set_ne _ _ _ _ (fun he => hj he.symm)

/-- `reset` trivially restores the invariant. -/
theorem reset_inv (a : Archetype α) : SlotInv a.reset := by
  constructor <;> simp [Archetype.reset]

/-! ## Compression -/

namespace Archetype

theorem getD_dropLast (l : List Nat) (i : Nat) (h : i < l.length - 1) :
    l.dropLast.getD i 0 = l.getD i 0 := by
  have h1 : i < l.dropLast.length := by
    rw [List.length_dropLast]
    exact h
  rw [getD_eq_getElem _ _ h1, getD_eq_getElem _ _ (by omega), List.getElem_dropLast]

theorem mem_dropLast_iff_of_nodup {l : List Nat} (hnd : l.Nodup) (hne : l ≠ [])
    (x : Nat) : x ∈ l.dropLast ↔ (x ∈ l ∧ x ≠ l.getLast hne) := by
  have hdecomp := List.dropLast_append_getLast hne
  constructor
  · intro hx
    refine ⟨(List.dropLast_sublist l).mem hx, ?_⟩
    intro hxe
    have hnd' := hnd
    rw [← hdecomp] at hnd'
    rcases List.nodup_append.mp hnd' with ⟨-, -, hdisj⟩
    exact hdisj hx (by simp [hxe])
  · rintro ⟨hx, hxne⟩
    rw [← hdecomp] at hx
    rcases List.mem_append.mp hx with hx | hx
    · exact hx
    · simp only [List.mem_singleton] at hx
      exact absurd hx hxne

theorem sorted_le_getLast {l : List Nat} (h : l.Sorted (· ≤ ·)) (hne : l ≠ [])
    (x : Nat) (hx : x ∈ l) : x ≤ l.getLast hne := by
  have hd := List.dropLast_append_getLast hne
  rw [← hd] at hx h
  rcases List.mem_append.mp hx with hx | hx
  · rcases List.pairwise_append.mp h with ⟨-, -, hrel⟩
    exact hrel x hx _ (by simp)
  · simp only [List.mem_singleton] at hx
    exact le_of_eq hx

theorem liveCount_append (A B : List Nat) :
    liveCount (A ++ B) = liveCount A + liveCount B := by
  unfold liveCount
  rw [List.filter_append, List.length_append]

theorem liveCount_eq_countP (l : List Nat) :
    liveCount l = l.countP (fun s => !emptyFromState s) := by
  rw [liveCount, List.countP_eq_length_filter]

/-- No live slot is dropped by the loop: a state table whose slots are all
live has `liveCount` equal to its length. -/
theorem liveCount_eq_length_of_all_live {l : List Nat}
    (h : ∀ s ∈ l, emptyFromState s = false) : liveCount l = l.length := by
  rw [liveCount, List.filter_eq_self.mpr]
  intro s hs
  simp [h s hs]

/-- The invariant carried through the compression loop: the free window is
sorted and duplicate-free, indexes tombstoned slots exactly, and the
columns run parallel to the state table. -/
structure LoopInv (f st : List Nat) (cols : List (Column α)) : Prop where
  sorted : f.Sorted (· ≤ ·)
  nodup : f.Nodup
  bound : ∀ i ∈ f, i < st.length
  tombIff : ∀ i, i < st.length → (emptyFromState (st.getD i 0) = true ↔ i ∈ f)
  stateLt : ∀ s ∈ st, s < 256
  colLen : ∀ c ∈ cols, c.cells.length = st.length

/-- Termination case of the loop: empty free window, all slots live. -/
theorem loopInv_all_live {st : List Nat} {cols : List (Column α)}
    (hInv : LoopInv [] st cols) : ∀ s ∈ st, emptyFromState s = false := by
  intro s hs
  obtain ⟨i, hi, rfl⟩ := List.mem_iff_getElem.mp hs
  rw [← getD_eq_getElem _ _ hi, Bool.eq_false_iff]
  intro he
  exact absurd ((hInv.tombIff i hi).mp he) (by simp)

/-- Correctness of the compression loop: it removes every tombstone while
preserving the live count, keeps all state bytes in `uint8` range, and
keeps every column parallel to the (shrunken) state table. -/
theorem compressLoopFuel_spec [Inhabited α] (fuel : Nat) :
    ∀ (f st : List Nat) (cols : List (Column α)), f.length ≤ fuel →
    LoopInv f st cols →
    (∀ s ∈ (compressLoopFuel fuel f st cols).1, emptyFromState s = false) ∧
    liveCount (compressLoopFuel fuel f st cols).1 = liveCount st ∧
    (∀ s ∈ (compressLoopFuel fuel f st cols).1, s < 256) ∧
    (∀ c ∈ (compressLoopFuel fuel f st cols).2,
      c.cells.length = (compressLoopFuel fuel f st cols).1.length) ∧
    (compressLoopFuel fuel f st cols).1.length ≤ st.length := by
  induction fuel with
  | zero =>
    intro f st cols hfl hInv
    have hf : f = [] := List.eq_nil_of_length_eq_zero (by omega)
    subst hf
    rw [compressLoopFuel]
    exact ⟨loopInv_all_live hInv, rfl, hInv.stateLt, hInv.colLen, le_refl _⟩
  | succ fuel ih =>
    intro f st cols hfl hInv
    match f with
    | [] =>
      rw [compressLoopFuel]
      exact ⟨loopInv_all_live hInv, rfl, hInv.stateLt, hInv.colLen, le_refl _⟩
    | x :: fs =>
      rw [compressLoopFuel]
      have hne : (x :: fs) ≠ [] := by simp
      have hlfmem : (x :: fs).getLast (by simp) ∈ x :: fs := List.getLast_mem _
      set lastFree := (x :: fs).getLast (by simp) with hlf
      have hlflt : lastFree < st.length := hInv.bound _ hlfmem
      have hstne : st ≠ [] := List.ne_nil_of_length_pos (by omega)
      have hstdecomp := List.dropLast_append_getLast hstne
      have hliveSingle : ∀ b : Nat, liveCount [b] =
          if emptyFromState b then 0 else 1 := by
        intro b
        rw [liveCount, List.filter_singleton]
        cases h : emptyFromState b <;> simp [h]
      by_cases hbranch : lastFree = st.length - 1
      · -- trailing-tombstone branch: pop every storage
        rw [if_pos hbranch]
        have hlastEmpty : emptyFromState (st.getD lastFree 0) = true :=
          (hInv.tombIff lastFree hlflt).mpr hlfmem
        have hfle : (x :: fs).dropLast.length ≤ fuel := by
          simp only [List.length_dropLast, List.length_cons] at hfl ⊢
          omega
        have hInv' : LoopInv (x :: fs).dropLast st.dropLast
            (cols.map (fun c => { c with cells := c.cells.dropLast })) := by
          constructor
          · exact List.Pairwise.sublist (List.dropLast_sublist _) hInv.sorted
          · exact List.Nodup.sublist (List.dropLast_sublist _) hInv.nodup
          · intro i hi
            rw [mem_dropLast_iff_of_nodup hInv.nodup hne] at hi
            have := hInv.bound i hi.1
            have hine : i ≠ lastFree := hi.2
            rw [List.length_dropLast]
            omega
          · intro i hi
            rw [List.length_dropLast] at hi
            rw [getD_dropLast _ _ hi, mem_dropLast_iff_of_nodup hInv.nodup hne]
            constructor
            · intro he
              refine ⟨(hInv.tombIff i (by omega)).mp he, ?_⟩
              omega
            · rintro ⟨hmem, -⟩
              exact (hInv.tombIff i (by omega)).mpr hmem
          · intro s hs
            exact hInv.stateLt s ((List.dropLast_sublist _).mem hs)
          · intro c hc
            simp only [List.mem_map] at hc
            obtain ⟨c0, hc0, rfl⟩ := hc
            simp only [List.length_dropLast]
            rw [hInv.colLen c0 hc0]
        obtain ⟨h1, h2, h3, h4, h5⟩ := ih _ _ _ hfle hInv'
        have hlcount : liveCount st = liveCount st.dropLast := by
          conv_lhs => rw [← hstdecomp]
          rw [liveCount_append]
          have hlast : st.getLast hstne = st.getD lastFree 0 := by
            rw [getD_eq_getElem _ _ hlflt, List.getLast_eq_getElem]
            congr 1
            omega
          rw [hlast, hliveSingle, if_pos hlastEmpty]
          omega
        refine ⟨h1, ?_, h3, h4, ?_⟩
        · rw [h2, hlcount]

        · rw [List.length_dropLast] at h5
          omega
      · -- hole-fill branch
        rw [if_neg hbranch]
        have hxmem : x ∈ x :: fs := by simp
        have hxle : x ≤ lastFree := sorted_le_getLast hInv.sorted hne x hxmem
        have hlflt' : lastFree < st.length - 1 := by omega
        have hxlt : x < st.length - 1 := by omega
        have hxlen : x < st.length := by omega
        have hxnotfs : x ∉ fs := (List.nodup_cons.mp hInv.nodup).1
        have hlastnotf : (st.length - 1) ∉ x :: fs := by
          intro hmem
          have := sorted_le_getLast hInv.sorted hne _ hmem
          omega
        have hlive : emptyFromState (st.getD (st.length - 1) 0) = false := by
          rw [Bool.eq_false_iff]
          intro he
          exact hlastnotf ((hInv.tombIff _ (by omega)).mp he)
        have hxempty : emptyFromState (st.getD x 0) = true :=
          (hInv.tombIff x hxlen).mpr hxmem
        have hfle : fs.length ≤ fuel := by
          simp only [List.length_cons] at hfl
          omega
        set st2 := st.set x 0 with hst2
        have hst2len : st2.length = st.length := List.length_set _ _ _
        have hInv' : LoopInv fs st2.dropLast
            (cols.map (fun c =>
              { c with cells := (c.cells.set x c.cells.getLast!).dropLast })) := by
          constructor
          · exact hInv.sorted.of_cons
          · exact (List.nodup_cons.mp hInv.nodup).2
          · intro i hi
            have hile := sorted_le_getLast hInv.sorted hne i (by simp [hi])
            rw [List.length_dropLast, hst2len]
            omega
          · intro i hi
            rw [List.length_dropLast, hst2len] at hi
            rw [getD_dropLast _ _ (by rw [hst2len]; exact hi)]
            by_cases hix : i = x
            · subst hix
              rw [hst2, getD_set_self _ _ _ hxlen]
              constructor
              · intro he
                exact absurd he (by decide)
              · intro hmem
                exact absurd hmem hxnotfs
            · rw [hst2, getD_set_ne _ _ _ _ (fun he => hix he.symm)]
              constructor
              · intro he
                rcases (hInv.tombIff i (by omega)).mp he with h
                rcases List.mem_cons.mp h with h | h
                · exact absurd h hix
                · exact h
              · intro hmem
                exact (hInv.tombIff i (by omega)).mpr (by simp [hmem])
          · intro s hs
            have hs2 : s ∈ st2 := (List.dropLast_sublist _).mem hs
            rcases List.mem_or_eq_of_mem_set hs2 with hs2 | hs2
            · exact hInv.stateLt s hs2
            · omega
          · intro c hc
            simp only [List.mem_map] at hc
            obtain ⟨c0, hc0, rfl⟩ := hc
            simp only [List.length_dropLast, List.length_set]
            rw [hInv.colLen c0 hc0, hst2len]
        obtain ⟨h1, h2, h3, h4, h5⟩ := ih _ _ _ hfle hInv'
        have hst2live : liveCount st2 = liveCount st + 1 := by
          rw [liveCount_eq_countP, liveCount_eq_countP, hst2,
            List.countP_set _ _ _ _ hxlen]
          have hx1 : (!emptyFromState st[x]) = false := by
            have := hxempty
            rw [getD_eq_getElem _ _ hxlen] at this
            simp [this]
          have hx2 : (!emptyFromState 0) = true := by decide
          simp only [hx1, hx2]
          simp
        have hst2dec : liveCount st2 = liveCount st2.dropLast + 1 := by
          have hst2ne : st2 ≠ [] := List.ne_nil_of_length_pos (by omega)
          conv_lhs => rw [← List.dropLast_append_getLast hst2ne]
          rw [liveCount_append, hliveSingle]
          have hgl : st2.getLast hst2ne = st2.getD (st.length - 1) 0 := by
            rw [getD_eq_getElem _ _ (by omega), List.getLast_eq_getElem]
            congr 1
            omega
          have hgl2 : st2.getD (st.length - 1) 0 = st.getD (st.length - 1) 0 := by
            rw [hst2]
            exact getD_set_ne _ _ _ _ (by omega)
          rw [hgl, hgl2, if_neg (by rw [hlive]; simp)]
        refine ⟨h1, ?_, h3, h4, ?_⟩
        · rw [h2]
          omega
        · rw [List.length_dropLast, hst2len] at h5
          omega

/-- The loop specification transported to `compressLoop`. -/
theorem compressLoop_spec [Inhabited α] (f st : List Nat) (cols : List (Column α))
    (hInv : LoopInv f st cols) :
    (∀ s ∈ (compressLoop f st cols).1, emptyFromState s = false) ∧
    liveCount (compressLoop f st cols).1 = liveCount st ∧
    (∀ s ∈ (compressLoop f st cols).1, s < 256) ∧
    (∀ c ∈ (compressLoop f st cols).2,
      c.cells.length = (compressLoop f st cols).1.length) ∧
    (compressLoop f st cols).1.length ≤ st.length := by
  unfold compressLoop
  exact compressLoopFuel_spec _ _ _ _ (le_refl _) hInv

/-- Correctness of `compressFull` under the slot-table invariant: the free
list is emptied, no tombstones remain, the live count (and hence `size`)
is preserved, and all columns stay parallel to the state table. -/
theorem compressFull_spec [Inhabited α] {a : Archetype α} (hInv : SlotInv a) :
    SlotInv (compressFull a) ∧
    (compressFull a).free = [] ∧
    (∀ s ∈ (compressFull a).state, emptyFromState s = false) ∧
    (compressFull a).size = a.size ∧
    (∀ c ∈ (compressFull a).tuple,
      c.cells.length = (compressFull a).state.length) ∧
    (compressFull a).cap = a.cap ∧ (compressFull a).flags = a.flags ∧
    (compressFull a).id = a.id ∧ (compressFull a).growable = a.growable := by
  unfold compressFull
  by_cases hfe : a.free.isEmpty
  · rw [if_pos hfe]
    have hfnil : a.free = [] := by simpa using hfe
    have hlive : ∀ s ∈ a.state, emptyFromState s = false := by
      intro s hs
      obtain ⟨i, hi, rfl⟩ := List.mem_iff_getElem.mp hs
      rw [← getD_eq_getElem _ _ hi, Bool.eq_false_iff]
      intro he
      have := (hInv.tombIff i hi).mp (by rwa [getD_eq_getElem _ _ hi] at he)
      rw [hfnil] at this
      exact absurd this (by simp)
    exact ⟨hInv, hfnil, hlive, rfl, fun c hc => hInv.colLen c hc, rfl, rfl, rfl, rfl⟩
  · rw [if_neg hfe]
    by_cases hsz : a.size = 0
    · rw [if_pos hsz]
      refine ⟨?_, rfl, by simp, ?_, ?_, rfl, rfl, rfl, rfl⟩
      · constructor <;> simp
      · simpa using hsz.symm
      · intro c hc
        simp only [List.mem_map] at hc
        obtain ⟨c0, hc0, rfl⟩ := hc
        simp
    · rw [if_neg hsz]
      dsimp only
      have hperm : (List.insertionSort (· ≤ ·) a.free).Perm a.free :=
        List.perm_insertionSort _ _
      have hInvL : LoopInv (List.insertionSort (· ≤ ·) a.free) a.state a.tuple := by
        constructor
        · exact List.sorted_insertionSort _ _
        · exact hperm.nodup_iff.mpr hInv.freeNodup
        · intro i hi
          exact hInv.freeBound i (hperm.mem_iff.mp hi)
        · intro i hi
          rw [getD_eq_getElem _ _ hi, hInv.tombIff i hi]
          exact (hperm.mem_iff).symm
        · exact hInv.stateLt
        · exact hInv.colLen
      obtain ⟨h1, h2, h3, h4, h5⟩ := compressLoop_spec _ _ _ hInvL
      have hsize : (compressLoop (List.insertionSort (· ≤ ·) a.free)
          a.state a.tuple).1.length = a.size := by
        rw [← liveCount_eq_length_of_all_live h1, h2, liveCount_eq_size hInv]
        rfl
      refine ⟨?_, rfl, h1, ?_, h4, rfl, rfl, rfl, rfl⟩
      · constructor
        · dsimp only
          exact le_trans h5 hInv.lenCap
        · intro i hi
          exact absurd hi (by simp)
        · simp
        · intro i hi
          dsimp only at hi ⊢
          constructor
          · intro he
            rw [h1 _ (List.getElem_mem hi)] at he
            exact absurd he (by simp)
          · intro hmem
            exact absurd hmem (by simp)
        · exact h3
        · intro s hs he
          rw [h1 s hs] at he
          exact absurd he (by simp)
        · exact h4
      · show (compressLoop _ _ _).1.length - List.length [] = a.size
        simpa using hsize

/-- `compress` preserves the slot-table invariant for every archetype. -/
theorem compress_inv [Inhabited α] {a : Archetype α} (hInv : SlotInv a) :
    SlotInv a.compress ∧ a.compress.cap = a.cap ∧ a.compress.flags = a.flags ∧
    a.compress.id = a.id ∧ a.compress.growable = a.growable := by
  unfold Archetype.compress
  by_cases hc : a.allowCompression
  · rw [if_pos hc]
    obtain ⟨h1, -, -, -, -, h6, h7, h8, h9⟩ := compressFull_spec hInv
    exact ⟨h1, h6, h7, h8, h9⟩
  · rw [if_neg hc]
    by_cases hsz : a.size = 0
    · rw [if_pos hsz]
      refine ⟨?_, rfl, rfl, rfl, rfl⟩
      constructor <;> simp
    · rw [if_neg hsz]
      exact ⟨hInv, rfl, rfl, rfl, rfl⟩

end Archetype

/-! ## The step relation and reachability -/

namespace Archetype

/-- Mapping every column's cells through a length-preserving update keeps
the invariant (used for the component-copy of `duplicateEntity`). -/
theorem slotInv_map_cells {a : Archetype α} (hInv : SlotInv a)
    (f : Column α → Column α)
    (hlen : ∀ c, (f c).cells.length = c.cells.length) :
    SlotInv { a with tuple := a.tuple.map f } := by
  constructor
  · exact hInv.lenCap
  · exact hInv.freeBound
  · exact hInv.freeNodup
  · exact hInv.tombIff
  · exact hInv.stateLt
  · exact hInv.tombVersionPos
  · intro c hc
    simp only [List.mem_map] at hc
    obtain ⟨c0, hc0, rfl⟩ := hc
    rw [hlen c0]
    exact hInv.colLen c0 hc0

/-- `createEntity` preserves the invariant and the registration data. -/
theorem createEntity_fst_spec {a : Archetype α} (hInv : SlotInv a) :
    SlotInv (a.createEntity).1 ∧ (a.createEntity).1.cap = a.cap ∧
    (a.createEntity).1.flags = a.flags ∧ (a.createEntity).1.growable = a.growable := by
  unfold Archetype.createEntity
  by_cases he : a.allowEntities
  · rw [if_pos he]
    cases hc : a.create none with
    | ok p =>
      obtain ⟨a', id⟩ := p
      dsimp only
      obtain ⟨h1, h2, h3, h4, -⟩ := create_spec hInv hc
      by_cases hid : id = EntityInvalidId
      · rw [if_pos hid]
        exact ⟨h1, h2, h3, h4⟩
      · rw [if_neg hid]
        exact ⟨h1, h2, h3, h4⟩
    | error e =>
      exact ⟨hInv, rfl, rfl, rfl⟩
  · rw [if_neg he]
    exact ⟨hInv, rfl, rfl, rfl⟩

/-- `duplicateEntity` preserves the invariant and the registration data. -/
theorem duplicateEntity_fst_spec {a : Archetype α} (otherId : Nat)
    (hInv : SlotInv a) :
    SlotInv (a.duplicateEntity otherId).1 ∧
    (a.duplicateEntity otherId).1.cap = a.cap ∧
    (a.duplicateEntity otherId).1.flags = a.flags ∧
    (a.duplicateEntity otherId).1.growable = a.growable := by
  unfold Archetype.duplicateEntity
  by_cases he : a.allowEntities
  · rw [if_pos he]
    cases hext : a.extractIndex otherId with
    | none => exact ⟨hInv, rfl, rfl, rfl⟩
    | some otherIndex =>
      cases hc : a.create none with
      | ok p =>
        obtain ⟨a', id⟩ := p
        dsimp only
        obtain ⟨h1, h2, h3, h4, -⟩ := create_spec hInv hc
        by_cases hid : id = EntityInvalidId
        · rw [if_pos hid]
          exact ⟨h1, h2, h3, h4⟩
        · rw [if_neg hid]
          refine ⟨?_, h2, h3, h4⟩
          exact slotInv_map_cells h1 _ (fun c => List.length_set _ _ _)
      | error e =>
        exact ⟨hInv, rfl, rfl, rfl⟩
  · rw [if_neg he]
    exact ⟨hInv, rfl, rfl, rfl⟩

/-- One archetype operation, as listed in the spec: `create` (with or
without a requested index, successful or throwing), `remove`,
`createEntity`, `duplicateEntity`, `compress` and `reset`. -/
inductive Step [Inhabited α] : Archetype α → Archetype α → Prop
  | create (a : Archetype α) (req : Option Nat) (a' : Archetype α) (id : Nat) :
      a.create req = .ok (a', id) → Step a a'
  | createThrow (a : Archetype α) (req : Option Nat) :
      a.create req = .error () → Step a a
  | remove (a : Archetype α) (id : Nat) : Step a (a.remove id)
  | createEntity (a : Archetype α) : Step a (a.createEntity).1
  | duplicateEntity (a : Archetype α) (otherId : Nat) :
      Step a (a.duplicateEntity otherId).1
  | compress (a : Archetype α) : Step a a.compress
  | reset (a : Archetype α) : Step a a.reset

/-- States reachable from `a` by a sequence of operations. -/
inductive Reachable [Inhabited α] : Archetype α → Archetype α → Prop
  | refl (a : Archetype α) : Reachable a a
  | tail {a b c : Archetype α} : Reachable a b → Step b c → Reachable a c

/-- Every operation preserves the slot-table invariant and the
registration constants. -/
theorem step_inv [Inhabited α] {a b : Archetype α} (hInv : SlotInv a)
    (h : Step a b) :
    SlotInv b ∧ b.cap = a.cap ∧ b.flags = a.flags ∧ b.growable = a.growable := by
  cases h with
  | create req a' id hc =>
    obtain ⟨h1, h2, h3, h4, -⟩ := create_spec hInv hc
    exact ⟨h1, h2, h3, h4⟩
  | createThrow req hc => exact ⟨hInv, rfl, rfl, rfl⟩
  | remove id =>
    obtain ⟨h1, h2, h3, h4, -⟩ := remove_spec id hInv
    exact ⟨h1, h2, h3, h4⟩
  | createEntity => exact createEntity_fst_spec hInv
  | duplicateEntity otherId => exact duplicateEntity_fst_spec otherId hInv
  | compress =>
    obtain ⟨h1, h2, h3, -, h4⟩ := compress_inv hInv
    exact ⟨h1, h2, h3, h4⟩
  | reset => exact ⟨reset_inv a, rfl, rfl, rfl⟩

/-- The slot-table invariant holds in every reachable state, and the
registration constants never change. -/
theorem reachable_inv [Inhabited α] {a b : Archetype α} (hInv : SlotInv a)
    (h : Reachable a b) :
    SlotInv b ∧ b.cap = a.cap ∧ b.flags = a.flags ∧ b.growable = a.growable := by
  induction h with
  | refl => exact ⟨hInv, rfl, rfl, rfl⟩
  | tail hr hs ih =>
    obtain ⟨h1, h2, h3, h4⟩ := ih
    obtain ⟨g1, g2, g3, g4⟩ := step_inv h1 hs
    exact ⟨g1, by rw [g2, h2], by rw [g3, h3], by rw [g4, h4]⟩

/-- A freshly constructed archetype satisfies the invariant. -/
theorem mk0_inv (id flags : Nat) (growable : Bool) (cols : List (Column α))
    (cap : Nat) : SlotInv (mk0 id flags growable cols cap) := by
  constructor <;> simp [mk0]

end Archetype

/-! ## Validated ids across operations -/

instance {e a : Type} [DecidableEq e] [DecidableEq a] : DecidableEq (Except e a) := fun x y =>
  match x, y with
  | .ok u, .ok v =>
    if h : u = v then isTrue (by rw [h]) else isFalse (by simp [h])
  | .error u, .error v =>
    if h : u = v then isTrue (by rw [h]) else isFalse (by simp [h])
  | .ok _, .error _ => isFalse (by simp)
  | .error _, .ok _ => isFalse (by simp)

namespace Archetype

/-- A successful `create` hands out an id that validates: its index field
is the allocated slot and its version field is the slot's (non-zero)
version.  Needs the slot space to fit the 24 index bits. -/
theorem create_ok_validateId {a a' : Archetype α} {req : Option Nat} {id : Nat}
    (hInv : SlotInv a) (hcap : a.cap ≤ 2 ^ 24)
    (h : a.create req = .ok (a', id)) (hid : id ≠ EntityInvalidId) :
    a'.validateId id = true ∧ indexFromId id < a'.state.length ∧
    (indexFromId id = a.state.length ∨ indexFromId id ∈ a.free) ∧
    versionFromId id ≠ 0 := by
  obtain ⟨hInv', hcap', -, -, -, -, hdisj⟩ := create_spec hInv h
  rcases hdisj with ⟨rfl, -⟩ | ⟨-, index, hidx, hlt, hideq, hb128, hbne, -⟩
  · exact absurd rfl hid
  · have hindexLt : index < 2 ^ 24 := by
      have h1 : a'.state.length ≤ a'.cap := hInv'.lenCap
      omega
    obtain ⟨hdec1, hdec2⟩ := id_decompose index (a'.state.getD index 0) hindexLt
    rw [← hideq] at hdec1 hdec2
    have hbmod : a'.state.getD index 0 % 128 = a'.state.getD index 0 :=
      Nat.mod_eq_of_lt hb128
    refine ⟨?_, ?_, ?_, ?_⟩
    · rw [validateId_eq_true_iff]
      refine ⟨by rw [hdec1]; exact hlt, ?_, ?_⟩
      · rw [hdec1, emptyFromState_false_iff]
        exact hb128
      · rw [hdec1, hdec2, versionFromState_eq, hbmod]
    · rw [hdec1]
      exact hlt
    · rw [hdec1]
      exact hidx
    · rw [hdec2, hbmod]
      exact hbne

/-- A successful `create` leaves every previously valid id valid: the
allocated slot is a fresh or tombstoned one, never a live one. -/
theorem create_ok_validateId_preserved {a a' : Archetype α} {req : Option Nat}
    {id2 id : Nat} (hInv : SlotInv a) (h : a.create req = .ok (a', id2))
    (hv : a.validateId id = true) : a'.validateId id = true := by
  obtain ⟨hidx, hlive, hver⟩ := validateId_eq_true_iff.mp hv
  obtain ⟨-, -, -, -, -, hlen, hdisj⟩ := create_spec hInv h
  rcases hdisj with ⟨-, rfl⟩ | ⟨-, index, hia, -, -, -, -, hframe⟩
  · exact hv
  · have hne : indexFromId id ≠ index := by
      rcases hia with rfl | hmem
      · omega
      · intro he
        rw [he] at hlive
        have := (hInv.tombIff index (by rw [← he]; exact hidx)).mpr hmem
        rw [← getD_eq_getElem _ _ (by rw [← he]; exact hidx)] at this
        rw [this] at hlive
        exact absurd hlive (by simp)
    rw [validateId_eq_true_iff]
    rw [hframe _ hne]
    exact ⟨by omega, hlive, hver⟩

/-- `validateId` only looks at the state table, so the component copy of
`duplicateEntity` does not affect it. -/
theorem validateId_map_cells (a : Archetype α) (f : Column α → Column α)
    (id : Nat) : ({ a with tuple := a.tuple.map f } : Archetype α).validateId id
      = a.validateId id := rfl

/-- `createEntity` leaves every valid id valid. -/
theorem createEntity_validateId_preserved {a : Archetype α} {id : Nat}
    (hInv : SlotInv a) (hv : a.validateId id = true) :
    (a.createEntity).1.validateId id = true := by
  unfold Archetype.createEntity
  by_cases he : a.allowEntities
  · rw [if_pos he]
    cases hc : a.create none with
    | ok p =>
      obtain ⟨a', id2⟩ := p
      dsimp only
      by_cases hid : id2 = EntityInvalidId
      · rw [if_pos hid]
        exact create_ok_validateId_preserved hInv hc hv
      · rw [if_neg hid]
        exact create_ok_validateId_preserved hInv hc hv
    | error e => exact hv
  · rw [if_neg he]
    exact hv

/-- `duplicateEntity` leaves every valid id valid. -/
theorem duplicateEntity_validateId_preserved {a : Archetype α} {oid id : Nat}
    (hInv : SlotInv a) (hv : a.validateId id = true) :
    (a.duplicateEntity oid).1.validateId id = true := by
  unfold Archetype.duplicateEntity
  by_cases he : a.allowEntities
  · rw [if_pos he]
    cases hext : a.extractIndex oid with
    | none => exact hv
    | some otherIndex =>
      cases hc : a.create none with
      | ok p =>
        obtain ⟨a', id2⟩ := p
        dsimp only
        by_cases hid : id2 = EntityInvalidId
        · rw [if_pos hid]
          exact create_ok_validateId_preserved hInv hc hv
        · rw [if_neg hid]
          rw [validateId_map_cells]
          exact create_ok_validateId_preserved hInv hc hv
      | error e => exact hv
  · rw [if_neg he]
    exact hv

/-- Removing an id that targets a different slot index leaves a valid id
valid. -/
theorem remove_other_validateId_preserved {a : Archetype α} {id id2 : Nat}
    (hInv : SlotInv a) (hv : a.validateId id = true)
    (hne : indexFromId id2 ≠ indexFromId id) :
    (a.remove id2).validateId id = true := by
  obtain ⟨hidx, hlive, hver⟩ := validateId_eq_true_iff.mp hv
  obtain ⟨-, -, -, -, -, hlen, -, hsome⟩ := remove_spec id2 hInv
  cases hext : a.extractIndex id2 with
  | none =>
    obtain ⟨-, -, -, -, -, -, hnone, -⟩ := remove_spec id2 hInv
    rw [hnone hext]
    exact hv
  | some index =>
    obtain ⟨-, -, hframe⟩ := hsome index hext
    obtain ⟨hieq, -, -, -⟩ := extractIndex_eq_some_iff.mp hext
    rw [validateId_eq_true_iff, hframe _ (by rw [← hieq] at hne; exact fun he => hne he.symm)]
    exact ⟨by omega, hlive, hver⟩

/-- `remove(id)` invalidates `id` (whether or not it was valid before). -/
theorem remove_validateId_false {a : Archetype α} (id : Nat) (hInv : SlotInv a) :
    (a.remove id).validateId id = false := by
  cases hext : a.extractIndex id with
  | none =>
    obtain ⟨-, -, -, -, -, -, hnone, -⟩ := remove_spec id hInv
    rw [hnone hext]
    rw [Bool.eq_false_iff]
    intro hv
    rw [validateId_iff_extractIndex] at hv
    rw [hv] at hext
    exact Option.noConfusion hext
  | some index =>
    obtain ⟨-, -, -, -, -, hlen, -, hsome⟩ := remove_spec id hInv
    obtain ⟨-, hbyte, -⟩ := hsome index hext
    obtain ⟨hieq, hlt, -, -⟩ := extractIndex_eq_some_iff.mp hext
    rw [Bool.eq_false_iff]
    intro hv
    obtain ⟨-, hlive, -⟩ := validateId_eq_true_iff.mp hv
    rw [← hieq, hbyte] at hlive
    set v1 := if versionFromState (a.state.getD index 0 + 1) = 0 then 1
      else versionFromState (a.state.getD index 0 + 1) with hv1
    have hv1lt : v1 < 128 := by
      rw [hv1]
      by_cases h : versionFromState (a.state.getD index 0 + 1) = 0
      · rw [if_pos h]
        omega
      · rw [if_neg h, versionFromState_eq]
        exact Nat.mod_lt _ (by norm_num)
    rw [stateFromVersionAndEmpty_true _ hv1lt, emptyFromState_false_iff] at hlive
    omega

/-- `reset` invalidates every id. -/
theorem reset_validateId_false (a : Archetype α) (id : Nat) :
    a.reset.validateId id = false := by
  rw [Bool.eq_false_iff]
  intro hv
  obtain ⟨hlt, -, -⟩ := validateId_eq_true_iff.mp hv
  simp [Archetype.reset] at hlt

/-- `lastIdxOf` finds a hit for every member of the list. -/
theorem lastIdxOf_isSome_of_mem {l : List Nat} {r : Nat} (h : r ∈ l) :
    ∃ i, lastIdxOf l r = some i := by
  unfold lastIdxOf
  cases hf : l.reverse.findIdx? (· == r) with
  | none =>
    rw [List.findIdx?_eq_none_iff] at hf
    have := hf r (by rwa [List.mem_reverse])
    simp at this
  | some j => exact ⟨l.length - 1 - j, rfl⟩


end Archetype

/-! ## Concrete fixtures used by the claim witnesses -/

/-- A one-component column (POD payload of 8 bytes, mask 1). -/
def natCol : Column Nat :=
  { meta := { name := [80, 111, 115], version := 1, mask := 1, flags := 0,
              size := 8, podType := true },
    dflt := 7, init := 0, cells := [] }

/-- An entity-capable archetype with one component and capacity 2. -/
def archEnt : Archetype Nat := Archetype.mk0 1 0 false [natCol] 2

/-- A compressable (`ArchetypeFlagCompressableNoEntities`) archetype with
one component and capacity 2. -/
def archCmp : Archetype Nat :=
  Archetype.mk0 2 ArchetypeFlagCompressableNoEntities false [natCol] 2

def archEnt1 : Archetype Nat := (archEnt.createEntity).1

def archEnt2 : Archetype Nat := (archEnt1.createEntity).1

def archEnt3 : Archetype Nat := archEnt2.remove (1 <<< 24)

def archCmp1 : Archetype Nat :=
  { archCmp with tuple := [{ natCol with cells := [7] }], state := [1] }

def archCmp2 : Archetype Nat :=
  { archCmp with tuple := [{ natCol with cells := [7, 7] }], state := [1, 1] }

def archCmp3 : Archetype Nat := archCmp2.remove (1 <<< 24)

/-! ## Claim C2 -/

/-- **C2** (slot-table invariant): in every archetype state reachable by
any sequence of `create`, `remove`, `createEntity`, `duplicateEntity`,
`compress` and `reset` operations from a freshly registered archetype, a
slot's tombstone bit is set exactly when its index occurs on the free
list, the live count equals `len(state) - len(free)`, and every column has
exactly `len(state)` cells. -/
theorem claim_C2_slot_table_invariant {α : Type} [Inhabited α]
    (id0 flags0 : Nat) (growable0 : Bool) (cols0 : List (Column α)) (cap0 : Nat)
    (a : Archetype α)
    (hreach : Archetype.Reachable (Archetype.mk0 id0 flags0 growable0 cols0 cap0) a) :
    (∀ i, (h : i < a.state.length) →
       (emptyFromState a.state[i] = true ↔ i ∈ a.free)) ∧
    liveCount a.state = a.state.length - a.free.length ∧
    (∀ c ∈ a.tuple, c.cells.length = a.state.length) := by
  obtain ⟨hInv, -, -, -⟩ :=
    Archetype.reachable_inv (Archetype.mk0_inv id0 flags0 growable0 cols0 cap0) hreach
  exact ⟨hInv.tombIff, liveCount_eq_size hInv, hInv.colLen⟩

/-- Witness for C2: two `createEntity` calls followed by a `remove`. -/
theorem claim_C2_slot_table_invariant_witness :
    (∀ i, (h : i < archEnt3.state.length) →
       (emptyFromState archEnt3.state[i] = true ↔ i ∈ archEnt3.free)) ∧
    liveCount archEnt3.state = archEnt3.state.length - archEnt3.free.length ∧
    (∀ c ∈ archEnt3.tuple, c.cells.length = archEnt3.state.length) :=
  claim_C2_slot_table_invariant 1 0 false [natCol] 2 archEnt3
    (.tail (.tail (.tail (.refl _) (.createEntity _)) (.createEntity _))
      (.remove _ (1 <<< 24)))

/-! ## Claim C4 -/

/-- **C4** (no implicit reallocation on create): on an archetype whose
state table is at capacity with an empty free list, `create` returns the
invalid id `0` and leaves the archetype unchanged, and `createEntity`
returns the empty entity without raising; an archetype flagged
`CompressableNoEntities` returns the empty entity from `createEntity` in
every state. -/
theorem claim_C4_full_create_refusal {α : Type} [Inhabited α]
    (a b : Archetype α)
    (hfull : a.state.length = a.cap) (hfree : a.free = [])
    (hb : b.allowEntities = false) :
    a.create none = .ok (a, EntityInvalidId) ∧
    a.createEntity = (a, none) ∧
    b.createEntity = (b, none) := by
  have hc : a.create none = .ok (a, EntityInvalidId) := by
    unfold Archetype.create
    simp only
    rw [if_pos (by rw [hfree]; rfl)]
    unfold Archetype.createNew
    rw [if_pos hfull]
  refine ⟨hc, ?_, ?_⟩
  · unfold Archetype.createEntity
    by_cases he : a.allowEntities
    · rw [if_pos he, hc]
      dsimp only
      rw [if_pos rfl]
    · rw [if_neg he]
  · unfold Archetype.createEntity
    rw [if_neg (by rw [hb]; simp)]

/-- Witness for C4: a full bounded archetype and a compressable one. -/
theorem claim_C4_full_create_refusal_witness :
    (archEnt2.state.length = archEnt2.cap ∧ archEnt2.free = [] ∧
     archCmp.allowEntities = false) ∧
    (archEnt2.create none = .ok (archEnt2, EntityInvalidId) ∧
     archEnt2.createEntity = (archEnt2, none) ∧
     archCmp.createEntity = (archCmp, none)) :=
  ⟨⟨by decide, by decide, by decide⟩,
    claim_C4_full_create_refusal archEnt2 archCmp (by decide) (by decide) (by decide)⟩

/-! ## Claim C6 -/

/-- **C6** (compression postcondition): on a reachable archetype state
that permits compression, `compress()` preserves the live count
(`size()`), leaves no tombstoned slot, empties the free list, and keeps
every column exactly `len(state)` cells long. -/
theorem claim_C6_compression_postcondition {α : Type} [Inhabited α]
    (id0 flags0 : Nat) (growable0 : Bool) (cols0 : List (Column α)) (cap0 : Nat)
    (a : Archetype α)
    (hreach : Archetype.Reachable (Archetype.mk0 id0 flags0 growable0 cols0 cap0) a)
    (hcomp : a.allowCompression = true) :
    a.compress.size = a.size ∧
    (∀ s ∈ a.compress.state, emptyFromState s = false) ∧
    a.compress.free = [] ∧
    (∀ c ∈ a.compress.tuple, c.cells.length = a.compress.state.length) := by
  obtain ⟨hInv, -, -, -⟩ :=
    Archetype.reachable_inv (Archetype.mk0_inv id0 flags0 growable0 cols0 cap0) hreach
  have hce : a.compress = Archetype.compressFull a := by
    unfold Archetype.compress
    rw [if_pos hcomp]
  obtain ⟨-, hfree, hlive, hsize, hcol, -, -, -, -⟩ := Archetype.compressFull_spec hInv
  rw [hce]
  exact ⟨hsize, hlive, hfree, hcol⟩

/-- Witness for C6: a compressable archetype holding two entries with the
first removed, then compressed. -/
theorem claim_C6_compression_postcondition_witness :
    archCmp3.compress.size = archCmp3.size ∧
    (∀ s ∈ archCmp3.compress.state, emptyFromState s = false) ∧
    archCmp3.compress.free = [] ∧
    (∀ c ∈ archCmp3.compress.tuple,
      c.cells.length = archCmp3.compress.state.length) :=
  claim_C6_compression_postcondition 2 ArchetypeFlagCompressableNoEntities false
    [natCol] 2 archCmp3
    (.tail (.tail (.tail (.refl _)
        (.create _ none archCmp1 (1 <<< 24) (by decide)))
        (.create _ none archCmp2 (1 ||| (1 <<< 24)) (by decide)))
      (.remove _ (1 <<< 24)))
    (by decide)

/-! ## Claim C7 -/

/-- `create` with a specific requested index that is below the state size
dispatches to `PopSpecificFree`. -/
theorem create_some_eq_popSpecificFree {α : Type} {a : Archetype α} {r : Nat}
    (hne : r ≠ a.state.length) : a.create (some r) = a.popSpecificFree r := by
  unfold Archetype.create
  simp only
  rw [if_neg hne]

/-- The id handed out by a successful `PopSpecificFree` packs the
requested index with the slot's stripped state byte. -/
theorem popSpecificFree_ok {α : Type} {a : Archetype α} {r i : Nat}
    (hfind : Archetype.lastIdxOf a.free r = some i) (hr : r < a.state.length) :
    ∃ a2, a.popSpecificFree r =
      .ok (a2, r ||| (versionFromState (a.state.getD r 0) <<< EntityIndexVersionShift)) := by
  unfold Archetype.popSpecificFree
  rw [hfind]
  have hset : (a.state.set r (versionFromState (a.state.getD r 0))).getD r 0
      = versionFromState (a.state.getD r 0) := getD_set_self _ _ _ hr
  dsimp only
  rw [hset]
  exact ⟨_, rfl⟩

/-- **C7** (version wrap never yields 0): on every reachable archetype
state whose capacity fits the 24-bit slot space, (a) removing a valid id
stores version `(v + 1) mod 128`, forced to `1` when that is `0`, with the
tombstone bit set; (b) a live slot at version 127 is, after `remove` and a
create that reuses the slot, handed out with version 1; and (c) no
successful `create` ever returns an id whose version field is 0. -/
theorem claim_C7_version_wrap {α : Type} [Inhabited α]
    (id0 flags0 : Nat) (growable0 : Bool) (cols0 : List (Column α)) (cap0 : Nat)
    (a : Archetype α) (id : Nat)
    (hcap : cap0 ≤ 2 ^ 24)
    (hreach : Archetype.Reachable (Archetype.mk0 id0 flags0 growable0 cols0 cap0) a) :
    (a.validateId id = true →
      (a.remove id).state.getD (indexFromId id) 0 =
        stateFromVersionAndEmpty
          (if (versionFromId id + 1) % 128 = 0 then 1
           else (versionFromId id + 1) % 128) true) ∧
    (a.validateId id = true → versionFromId id = 127 →
      ∃ a2 id2, (a.remove id).create (some (indexFromId id)) = .ok (a2, id2) ∧
        versionFromId id2 = 1 ∧ indexFromId id2 = indexFromId id) ∧
    (∀ req a2 id2, a.create req = .ok (a2, id2) → id2 ≠ EntityInvalidId →
      versionFromId id2 ≠ 0) := by
  obtain ⟨hInv, hcapa, -, -⟩ :=
    Archetype.reachable_inv (Archetype.mk0_inv id0 flags0 growable0 cols0 cap0) hreach
  have hcapa' : a.cap ≤ 2 ^ 24 := by
    rw [hcapa]
    simpa using hcap
  have hbyteFact : a.validateId id = true →
      (indexFromId id < a.state.length ∧
       a.state.getD (indexFromId id) 0 = versionFromId id) := by
    intro hv
    obtain ⟨hlt, hlive, hver⟩ := validateId_eq_true_iff.mp hv
    have hb256 : a.state.getD (indexFromId id) 0 < 256 := by
      rw [getD_eq_getElem _ _ hlt]
      exact hInv.stateLt _ (List.getElem_mem hlt)
    have hb128 : a.state.getD (indexFromId id) 0 < 128 := by
      rw [emptyFromState_false_iff] at hlive
      exact hlive
    refine ⟨hlt, ?_⟩
    rw [hver, versionFromState_eq, Nat.mod_eq_of_lt hb128]
  refine ⟨?_, ?_, ?_⟩
  · -- (a): the stored byte after remove
    intro hv
    obtain ⟨hlt, hbyte⟩ := hbyteFact hv
    have hext : a.extractIndex id = some (indexFromId id) :=
      validateId_iff_extractIndex.mp hv
    obtain ⟨-, -, -, -, -, -, -, hsome⟩ := remove_spec id hInv
    obtain ⟨-, hwrite, -⟩ := hsome _ hext
    rw [hwrite, hbyte, versionFromState_eq]
  · -- (b): reuse after wrapping from 127
    intro hv h127
    obtain ⟨hlt, hbyte⟩ := hbyteFact hv
    have hext : a.extractIndex id = some (indexFromId id) :=
      validateId_iff_extractIndex.mp hv
    obtain ⟨hInv1, -, -, -, -, hlen, -, hsome⟩ := remove_spec id hInv
    obtain ⟨hfree1, hwrite, -⟩ := hsome _ hext
    have hwrite1 : (a.remove id).state.getD (indexFromId id) 0 = 129 := by
      rw [hwrite, hbyte, h127]
      have h0 : versionFromState (127 + 1) = 0 := by decide
      rw [h0, if_pos rfl]
      decide
    have hmem : indexFromId id ∈ (a.remove id).free := by
      rw [hfree1]
      simp
    obtain ⟨i, hfind⟩ := Archetype.lastIdxOf_isSome_of_mem hmem
    have hne : indexFromId id ≠ (a.remove id).state.length := by
      rw [hlen]
      omega
    have hlt1 : indexFromId id < (a.remove id).state.length := by
      rw [hlen]
      exact hlt
    obtain ⟨a2, hok⟩ := popSpecificFree_ok hfind hlt1
    refine ⟨a2, _, by rw [create_some_eq_popSpecificFree hne]; exact hok, ?_, ?_⟩
    · rw [hwrite1]
      have hv129 : versionFromState 129 = 1 := by decide
      rw [hv129]
      have hidxlt : indexFromId id < 2 ^ 24 := by
        have := hInv.lenCap
        omega
      exact (id_decompose _ 1 hidxlt).2
    · rw [hwrite1]
      have hv129 : versionFromState 129 = 1 := by decide
      rw [hv129]
      have hidxlt : indexFromId id < 2 ^ 24 := by
        have := hInv.lenCap
        omega
      exact (id_decompose _ 1 hidxlt).1
  · -- (c): no version-0 ids from create
    intro req a2 id2 hok hid2
    exact (Archetype.create_ok_validateId hInv hcapa' hok hid2).2.2.2

/-- Witness for C7: the singleton-slot archetype after one create. -/
theorem claim_C7_version_wrap_witness :
    2 ≤ 2 ^ 24 ∧
    ((archEnt1.validateId (1 <<< 24) = true →
      (archEnt1.remove (1 <<< 24)).state.getD (indexFromId (1 <<< 24)) 0 =
        stateFromVersionAndEmpty
          (if (versionFromId (1 <<< 24) + 1) % 128 = 0 then 1
           else (versionFromId (1 <<< 24) + 1) % 128) true) ∧
    (archEnt1.validateId (1 <<< 24) = true → versionFromId (1 <<< 24) = 127 →
      ∃ a2 id2, (archEnt1.remove (1 <<< 24)).create (some (indexFromId (1 <<< 24)))
          = .ok (a2, id2) ∧
        versionFromId id2 = 1 ∧ indexFromId id2 = indexFromId (1 <<< 24)) ∧
    (∀ req a2 id2, archEnt1.create req = .ok (a2, id2) → id2 ≠ EntityInvalidId →
      versionFromId id2 ≠ 0)) :=
  ⟨by norm_num,
    claim_C7_version_wrap 1 0 false [natCol] 2 archEnt1 (1 <<< 24) (by norm_num)
      (.tail (.refl _) (.createEntity _))⟩

/-! ## Claim C9 -/

/-- **C9** (evaluation at the failing input): the claim that `validateId 0`
is false in every reachable state is violated by the code.  On a
compressable archetype, after `create`, `create`, `remove` of slot 0 and
`compress`, the hole-fill of `ArchetypeHelper::compress` writes the state
byte `false` (i.e. 0) — a live slot with version 0 — so the sentinel
id 0 validates.  This is the latent bug flagged in the source comments
(`EntityInvalidId = 0, cause version 0 will never exist`). -/
theorem claim_C9_invalid_id_sentinel_violated :
    Archetype.Reachable archCmp archCmp3.compress ∧
    archCmp3.compress.validateId 0 = true ∧
    emptyFromState (archCmp3.compress.state.getD 0 0) = false ∧
    versionFromState (archCmp3.compress.state.getD 0 0) = 0 := by
  refine ⟨?_, by decide, by decide, by decide⟩
  exact .tail (.tail (.tail (.tail (.refl _)
      (.create _ none archCmp1 (1 <<< 24) (by decide)))
      (.create _ none archCmp2 (1 ||| (1 <<< 24)) (by decide)))
      (.remove _ (1 <<< 24)))
    (.compress _)

/-! ## Claim C3 -/

/-- One create/remove cycle on a fresh slot (used to drive the 7-bit
version counter all the way around). -/
def wrapStep (a : Archetype Nat) : Archetype Nat :=
  match a.create none with
  | .ok (a2, i) => a2.remove i
  | .error _ => a

def wrapArch : Archetype Nat := Archetype.mk0 3 0 false [natCol] 1

def wrapBase : Archetype Nat := wrapStep wrapArch

def wrapEnd : Archetype Nat := wrapStep^[126] wrapBase

def wrapFinal : Archetype Nat :=
  match wrapEnd.create none with
  | .ok (a2, _) => a2
  | .error _ => wrapEnd

set_option maxRecDepth 100000 in
/-- Counterexample to C3 as stated.  First half: on a compressable
archetype the id `1 ||| (1 <<< 24)` returned by `create` is valid, and
after removing a *different* id and calling `compress()` — no `remove` of
this id, no `reset` — it no longer validates.  Second half: on a
single-slot archetype the id `1 <<< 24` is invalid right after its
`remove`, yet after 126 further create/remove cycles and one more create
(127 version bumps in total, wrapping 127 → 1) the very same id validates
again, so it does not stay false. -/
theorem claim_C3_counterexample :
    (archCmp2.validateId (1 ||| (1 <<< 24)) = true ∧
     archCmp3.compress.validateId (1 ||| (1 <<< 24)) = false) ∧
    (wrapBase.validateId (1 <<< 24) = false ∧
     wrapFinal.validateId (1 <<< 24) = true) :=
  ⟨⟨by decide, by decide⟩, by decide, by decide⟩

/-- **C3 (amended)**: on every reachable archetype state whose capacity
fits the 24-bit slot space, (1) an id handed out by a successful `create`
validates; (2) a valid id stays valid across `create`, `createEntity`,
`duplicateEntity`, and `remove` of ids targeting a different slot index
(`compress` and `reset` excluded); (3) immediately after `remove(id)` or
`reset()`, `validateId(id)` is false. -/
theorem claim_C3_generational_identity_amended {α : Type} [Inhabited α]
    (id0 flags0 : Nat) (growable0 : Bool) (cols0 : List (Column α)) (cap0 : Nat)
    (a : Archetype α) (hcap : cap0 ≤ 2 ^ 24)
    (hreach : Archetype.Reachable (Archetype.mk0 id0 flags0 growable0 cols0 cap0) a) :
    (∀ req a2 id, a.create req = .ok (a2, id) → id ≠ EntityInvalidId →
       a2.validateId id = true) ∧
    (∀ id, a.validateId id = true →
      (∀ req a2 id2, a.create req = .ok (a2, id2) → a2.validateId id = true) ∧
      (a.createEntity).1.validateId id = true ∧
      (∀ oid, (a.duplicateEntity oid).1.validateId id = true) ∧
      (∀ id2, indexFromId id2 ≠ indexFromId id →
        (a.remove id2).validateId id = true)) ∧
    (∀ id, (a.remove id).validateId id = false ∧
      a.reset.validateId id = false) := by
  obtain ⟨hInv, hcapa, -, -⟩ :=
    Archetype.reachable_inv (Archetype.mk0_inv id0 flags0 growable0 cols0 cap0) hreach
  have hcapa' : a.cap ≤ 2 ^ 24 := by
    rw [hcapa]
    simpa using hcap
  refine ⟨?_, ?_, ?_⟩
  · intro req a2 id hok hid
    exact (Archetype.create_ok_validateId hInv hcapa' hok hid).1
  · intro id hv
    exact ⟨fun req a2 id2 hok =>
        Archetype.create_ok_validateId_preserved hInv hok hv,
      Archetype.createEntity_validateId_preserved hInv hv,
      fun oid => Archetype.duplicateEntity_validateId_preserved hInv hv,
      fun id2 hne => Archetype.remove_other_validateId_preserved hInv hv hne⟩
  · intro id
    exact ⟨Archetype.remove_validateId_false id hInv,
      Archetype.reset_validateId_false a id⟩

/-- Witness for the amended C3 at a concrete reachable state. -/
theorem claim_C3_generational_identity_amended_witness :
    2 ≤ 2 ^ 24 ∧
    ((∀ req a2 id, archEnt1.create req = .ok (a2, id) → id ≠ EntityInvalidId →
       a2.validateId id = true) ∧
    (∀ id, archEnt1.validateId id = true →
      (∀ req a2 id2, archEnt1.create req = .ok (a2, id2) →
        a2.validateId id = true) ∧
      (archEnt1.createEntity).1.validateId id = true ∧
      (∀ oid, (archEnt1.duplicateEntity oid).1.validateId id = true) ∧
      (∀ id2, indexFromId id2 ≠ indexFromId id →
        (archEnt1.remove id2).validateId id = true)) ∧
    (∀ id, (archEnt1.remove id).validateId id = false ∧
      archEnt1.reset.validateId id = false)) :=
  ⟨by norm_num,
    claim_C3_generational_identity_amended 1 0 false [natCol] 2 archEnt1
      (by norm_num) (.tail (.refl _) (.createEntity _))⟩

/-! ## The registry (`Ecs`) and cross-archetype query dispatch -/

/-- `detail::BitwiseOr` over the requested component masks. -/
def bitwiseOr (masks : List Nat) : Nat := masks.foldr (fun m acc => m ||| acc) 0

/-- The registry: `Ecs::m_archetypes`, entries `Entry { mask, archetype }`
in registration order (`Ecs::insert` appends, Ecs.cpp 100-105). -/
structure Ecs (α : Type) where
  archetypes : List (Nat × Archetype α)

/-- `detail::ComponentBegin` (`componentBegin(mask)`): the storage of the
first component whose mask equals the requested mask, `none` for the null
pointer. -/
def Archetype.componentColumn (a : Archetype α) (mask : Nat) : Option (List α) :=
  match a.tuple.find? (fun c => c.meta.mask == mask) with
  | some c => some c.cells
  | none => none

/-- The inner loop of `Ecs::forEach` (Ecs.hh 1270-1274) on one archetype:
step through the state bytes, dereference the per-column iterators for
every live slot, and advance all iterators once per slot.  Collected as
the list of cell tuples handed to the predicate, in invocation order. -/
def archVisits [Inhabited α] : List (List α) → List Nat → List (List α)
  | _, [] => []
  | ptrs, s :: rest =>
    if emptyFromState s then archVisits (ptrs.map List.tail) rest
    else ptrs.map List.headI :: archVisits (ptrs.map List.tail) rest

/-- `Ecs::forEach` (Ecs.hh 1262-1277): for every registered archetype in
registration order whose entry mask contains the query mask, run the inner
loop with iterators obtained from `componentBegin` (a null pointer is
modelled as the empty column; it is never dereferenced under the claim's
hypotheses, see `claim_C5`). -/
def Ecs.forEachVisits [Inhabited α] (e : Ecs α) (qmasks : List Nat) : List (List α) :=
  let componentMask := bitwiseOr qmasks
  e.archetypes.flatMap (fun entry =>
    if entry.1 &&& componentMask == componentMask then
      archVisits (qmasks.map (fun m => (entry.2.componentColumn m).getD []))
        entry.2.state
    else [])

/-- The live slot indices of a state table, in ascending order. -/
def liveIndices (st : List Nat) : List Nat :=
  (List.range st.length).filter (fun i => !emptyFromState (st.getD i 0))

/-- The dispatch behaviour claimed for `forEach`, written from the spec:
one invocation per live slot of each archetype whose `archetypeMask`
(`staticMask()`) contains the bitwise OR of the requested masks, in
registration order and ascending slot order, receiving the slot's cell of
each requested column. -/
def Ecs.forEachSpecVisits [Inhabited α] (e : Ecs α) (qmasks : List Nat) :
    List (List α) :=
  let componentMask := bitwiseOr qmasks
  e.archetypes.flatMap (fun entry =>
    if entry.2.staticMask &&& componentMask == componentMask then
      (liveIndices entry.2.state).map
        (fun i => qmasks.map (fun m => ((entry.2.componentColumn m).getD []).getI i))
    else [])

theorem getI_tail [Inhabited α] (l : List α) (i : Nat) :
    l.tail.getI i = l.getI (i + 1) := by
  cases l <;> simp [List.getI]

theorem liveIndices_cons (s : Nat) (rest : List Nat) :
    liveIndices (s :: rest) =
      (if emptyFromState s then [] else [0]) ++ (liveIndices rest).map (· + 1) := by
  unfold liveIndices
  rw [List.length_cons, List.range_succ_eq_map, List.filter_cons]
  have hmap : List.filter (fun i => !emptyFromState ((s :: rest).getD i 0))
      ((List.range rest.length).map Nat.succ)
      = (List.filter (fun i => !emptyFromState (rest.getD i 0))
          (List.range rest.length)).map Nat.succ := by
    rw [List.filter_map]
    congr 1
  by_cases h : emptyFromState s
  · simp only [List.getD_cons_zero, h, Bool.not_true, Bool.false_eq_true, if_false,
      if_true, List.nil_append]
    rw [hmap]
  · simp only [List.getD_cons_zero, h, Bool.not_false, if_true, Bool.false_eq_true,
      if_false]
    rw [hmap]
    rfl

/-- The iterator walk visits exactly the live slots in ascending order,
reading each column at the slot index. -/
theorem archVisits_eq [Inhabited α] (st : List Nat) :
    ∀ ptrs : List (List α),
    archVisits ptrs st = (liveIndices st).map (fun i => ptrs.map (fun c => c.getI i)) := by
  induction st with
  | nil => intro ptrs; rfl
  | cons s rest ih =>
    intro ptrs
    rw [archVisits, liveIndices_cons, List.map_append, List.map_map, ih]
    have htails : (liveIndices rest).map ((fun i => ptrs.map fun c => c.getI i) ∘ (· + 1))
        = (liveIndices rest).map (fun i => (ptrs.map List.tail).map fun c => c.getI i) := by
      apply List.map_congr_left
      intro i hi
      simp only [Function.comp_apply, List.map_map]
      apply List.map_congr_left
      intro c hc
      simp only [Function.comp_apply, getI_tail]
    by_cases h : emptyFromState s
    · rw [if_pos h, if_pos h]
      simpa using htails.symm
    · rw [if_neg h, if_neg h]
      simp only [List.map_cons, List.map_nil, List.singleton_append, List.cons.injEq]
      refine ⟨?_, by rw [htails]⟩
      apply List.map_congr_left
      intro c hc
      rw [List.getI_zero_eq_headI]

theorem testBit_bitwiseOr (l : List Nat) (k : Nat) :
    (bitwiseOr l).testBit k = l.any (fun m => m.testBit k) := by
  induction l with
  | nil => simp [bitwiseOr, Nat.zero_testBit]
  | cons m rest ih =>
    rw [bitwiseOr, List.foldr_cons, Nat.testBit_lor, List.any_cons]
    rw [← ih]
    rfl

/-- If the archetype mask contains the query mask, every single-bit
requested mask is the mask of some column of the archetype. -/
theorem componentColumn_isSome_of_mask {a : Archetype α} {qmasks : List Nat}
    {m : Nat} (hm : m ∈ qmasks) (hk : ∃ k, m = 2 ^ k)
    (hcols : ∀ c ∈ a.tuple, ∃ k, c.meta.mask = 2 ^ k)
    (hmask : a.staticMask &&& bitwiseOr qmasks = bitwiseOr qmasks) :
    (a.componentColumn m).isSome := by
  obtain ⟨k, rfl⟩ := hk
  have hbitOr : (bitwiseOr qmasks).testBit k = true := by
    rw [testBit_bitwiseOr, List.any_eq_true]
    exact ⟨_, hm, by rw [Nat.testBit_two_pow]; simp⟩
  have hbitStatic : a.staticMask.testBit k = true := by
    have := congrArg (fun n => n.testBit k) hmask
    simp only [Nat.testBit_land] at this
    rw [hbitOr] at this
    simpa using this
  have hstatic : (Archetype.staticMask a).testBit k
      = (a.tuple.map (fun c => c.meta.mask)).any (fun m => m.testBit k) := by
    unfold Archetype.staticMask
    induction a.tuple with
    | nil => simp [Nat.zero_testBit]
    | cons c rest ih2 =>
      rw [List.foldr_cons, Nat.testBit_lor, List.map_cons, List.any_cons, ih2]
  rw [hstatic, List.any_eq_true] at hbitStatic
  obtain ⟨mm, hmm, hbit⟩ := hbitStatic
  simp only [List.mem_map] at hmm
  obtain ⟨c, hc, rfl⟩ := hmm
  obtain ⟨j, hj⟩ := hcols c hc
  rw [hj, Nat.testBit_two_pow] at hbit
  have hkj : j = k := by simpa using hbit
  unfold Archetype.componentColumn
  cases hfind : a.tuple.find? (fun c => c.meta.mask == 2 ^ k) with
  | some c2 => simp
  | none =>
    rw [List.find?_eq_none] at hfind
    have hcontra := hfind c hc
    rw [hj, hkj] at hcontra
    simp at hcontra

theorem flatMap_congr_mem {β γ : Type} {l : List β} {f g : β → List γ}
    (h : ∀ x ∈ l, f x = g x) : l.flatMap f = l.flatMap g := by
  induction l with
  | nil => rfl
  | cons x rest ih =>
    rw [List.flatMap_cons, List.flatMap_cons, h x (by simp),
      ih (fun y hy => h y (by simp [hy]))]

/-! ## Claim C5 -/

/-- **C5** (query dispatch coverage and order): provided the registry
entries carry their archetype's `staticMask` (as `registerArchetype`
stores them) and all component masks are single bits (as
`validateComponentInfo` enforces), `forEach` invokes the predicate exactly
once per live slot of each archetype whose `archetypeMask` contains the
bitwise OR of the requested masks — archetypes in registration order,
slots in strictly ascending index order, handing over the slot's cell of
each requested column — and visits nothing else; moreover on every
matching archetype each requested component resolves to an actual
column. -/
theorem claim_C5_forEach_dispatch {α : Type} [Inhabited α] (e : Ecs α)
    (qmasks : List Nat)
    (hreg : ∀ entry ∈ e.archetypes, entry.1 = entry.2.staticMask)
    (hq : ∀ m ∈ qmasks, ∃ k, m = 2 ^ k)
    (hcols : ∀ entry ∈ e.archetypes, ∀ c ∈ entry.2.tuple, ∃ k, c.meta.mask = 2 ^ k) :
    e.forEachVisits qmasks = e.forEachSpecVisits qmasks ∧
    (∀ entry ∈ e.archetypes,
      entry.2.staticMask &&& bitwiseOr qmasks = bitwiseOr qmasks →
      ∀ m ∈ qmasks, (entry.2.componentColumn m).isSome) := by
  constructor
  · unfold Ecs.forEachVisits Ecs.forEachSpecVisits
    apply flatMap_congr_mem
    intro entry hentry
    rw [hreg entry hentry]
    by_cases hcond : entry.2.staticMask &&& bitwiseOr qmasks == bitwiseOr qmasks
    · rw [if_pos hcond, if_pos hcond, archVisits_eq]
      apply List.map_congr_left
      intro i hi
      rw [List.map_map]
      rfl
    · rw [if_neg hcond, if_neg hcond]
  · intro entry hentry hmask m hm
    exact componentColumn_isSome_of_mask hm (hq m hm) (hcols entry hentry)
      hmask

/-- The second fixture component (mask 2). -/
def timCol : Column Nat :=
  { meta := { name := [84, 105, 109], version := 1, mask := 2, flags := 0,
              size := 4, podType := true },
    dflt := 9, init := 0, cells := [] }

/-- A two-component archetype (masks 1 and 2). -/
def archTwo : Archetype Nat := Archetype.mk0 4 0 false [natCol, timCol] 2

def archTwo1 : Archetype Nat := (archTwo.createEntity).1

/-- A registry with two archetypes in registration order. -/
def ecsFix : Ecs Nat := ⟨[(1, archEnt3), (3, archTwo1)]⟩

/-- Witness for C5 on a concrete two-archetype registry queried for
component mask 1. -/
theorem claim_C5_forEach_dispatch_witness :
    ecsFix.forEachVisits [1] = ecsFix.forEachSpecVisits [1] ∧
    (∀ entry ∈ ecsFix.archetypes,
      entry.2.staticMask &&& bitwiseOr [1] = bitwiseOr [1] →
      ∀ m ∈ [1], (entry.2.componentColumn m).isSome) :=
  claim_C5_forEach_dispatch ecsFix [1]
    (by decide)
    (by
      intro m hm
      rw [List.mem_singleton] at hm
      exact ⟨0, by rw [hm]; rfl⟩)
    (by
      intro entry hentry c hc
      have hentry' : entry = ((1 : Nat), archEnt3) ∨ entry = (3, archTwo1) := by
        rcases List.mem_cons.mp hentry with h | h
        · exact Or.inl h
        · exact Or.inr (List.mem_singleton.mp h)
      rcases hentry' with rfl | rfl
      · have hmap : archEnt3.tuple.map (fun c => c.meta.mask) = [1] := by decide
        have hcm : c.meta.mask ∈ archEnt3.tuple.map (fun c => c.meta.mask) :=
          List.mem_map_of_mem _ hc
        rw [hmap, List.mem_singleton] at hcm
        exact ⟨0, by rw [hcm]; rfl⟩
      · have hmap : archTwo1.tuple.map (fun c => c.meta.mask) = [1, 2] := by decide
        have hcm : c.meta.mask ∈ archTwo1.tuple.map (fun c => c.meta.mask) :=
          List.mem_map_of_mem _ hc
        rw [hmap] at hcm
        rcases List.mem_cons.mp hcm with h | h
        · exact ⟨0, by rw [h]; rfl⟩
        · rw [List.mem_singleton] at h
          exact ⟨1, by rw [h]; rfl⟩)

/-! ## Claim C10 -/

/-- `ComponentIterator::initialize` (Advanced.hh 51-60): scan all
archetypes in registration order and store pointers to those whose
`mask()` contains the query mask into the `Max`-slot array whose remaining
entries stay null (the member initialiser fills with `nullptr`).  When
more than `Max` archetypes match, the source asserts and writes out of
bounds; the model is faithful for match counts up to `Max`, which is the
hypothesis of `claim_C10`. -/
def iteratorInitialize [Inhabited α] (e : Ecs α) (qmasks : List Nat)
    (maxA : Nat) : List (Option (Archetype α)) :=
  let componentMask := bitwiseOr qmasks
  let matching := (e.archetypes.map Prod.snd).filter
    (fun a => a.staticMask &&& componentMask == componentMask)
  matching.map some ++ List.replicate (maxA - matching.length) none

/-- `ComponentIterator::iterate` (Advanced.hh 61-79): walk the stored
array, returning at the first null pointer, and run the same
per-archetype loop as `forEach` on each stored archetype. -/
def iterateVisits [Inhabited α] (qmasks : List Nat) :
    List (Option (Archetype α)) → List (List α)
  | [] => []
  | none :: _ => []
  | some a :: rest =>
    archVisits (qmasks.map (fun m => (a.componentColumn m).getD [])) a.state
      ++ iterateVisits qmasks rest

theorem iterateVisits_padded [Inhabited α] (qmasks : List Nat)
    (l : List (Archetype α)) (k : Nat) :
    iterateVisits qmasks (l.map some ++ List.replicate k none)
      = l.flatMap (fun a =>
          archVisits (qmasks.map (fun m => (a.componentColumn m).getD [])) a.state) := by
  induction l with
  | nil =>
    cases k with
    | zero => rfl
    | succ k => rfl
  | cons a rest ih =>
    rw [List.map_cons, List.cons_append, iterateVisits, ih, List.flatMap_cons]

theorem flatMap_if_filter {β γ : Type} (l : List β) (p : β → Bool) (f : β → List γ) :
    l.flatMap (fun x => if p x then f x else []) = (l.filter p).flatMap f := by
  induction l with
  | nil => rfl
  | cons x rest ih =>
    rw [List.flatMap_cons, List.filter_cons]
    by_cases h : p x
    · rw [if_pos h, if_pos h, List.flatMap_cons, ih]
    · rw [if_neg h, if_neg h, List.nil_append, ih]

theorem filter_map_snd {β : Type} (l : List (Nat × Archetype β)) (M : Nat)
    (hreg : ∀ entry ∈ l, entry.1 = entry.2.staticMask) :
    (l.map Prod.snd).filter (fun a => a.staticMask &&& M == M)
      = (l.filter (fun entry => entry.1 &&& M == M)).map Prod.snd := by
  induction l with
  | nil => rfl
  | cons entry rest ih =>
    have hent := hreg entry (by simp)
    rw [List.map_cons, List.filter_cons, List.filter_cons, hent]
    by_cases h : entry.2.staticMask &&& M == M
    · rw [if_pos h, if_pos h, List.map_cons,
        ih (fun en hen => hreg en (by simp [hen]))]
    · rw [if_neg h, if_neg h, ih (fun en hen => hreg en (by simp [hen]))]

/-- **C10** (precomputed-iterator equivalence): provided the registry
entries carry their archetype's `staticMask` and at most `Max` archetypes
match the query mask, a `ComponentIterator` initialised on the registry
visits exactly the same component cells in exactly the same order as
`Ecs::forEach` — matching archetypes in registration order, live slots in
ascending index order. -/
theorem claim_C10_component_iterator_equivalence {α : Type} [Inhabited α]
    (e : Ecs α) (qmasks : List Nat) (maxA : Nat)
    (hreg : ∀ entry ∈ e.archetypes, entry.1 = entry.2.staticMask)
    (_hcount : ((e.archetypes.map Prod.snd).filter
        (fun a => a.staticMask &&& bitwiseOr qmasks == bitwiseOr qmasks)).length
      ≤ maxA) :
    iterateVisits qmasks (iteratorInitialize e qmasks maxA)
      = e.forEachVisits qmasks := by
  unfold iteratorInitialize Ecs.forEachVisits
  dsimp only
  rw [iterateVisits_padded, filter_map_snd e.archetypes (bitwiseOr qmasks) hreg,
    List.flatMap_map, ← flatMap_if_filter]

/-- Witness for C10 on the concrete two-archetype registry with `Max` 4. -/
theorem claim_C10_component_iterator_equivalence_witness :
    iterateVisits [1] (iteratorInitialize ecsFix [1] 4)
      = ecsFix.forEachVisits [1] :=
  claim_C10_component_iterator_equivalence ecsFix [1] 4 (by decide) (by decide)

/-! ## Serialization (Ecs.cpp 107-190, Ecs.hh 489-531 and 1438-1628)

The byte model works over `Archetype Nat`: each component cell is the
value of the POD block of `meta.size` bytes, written little-endian.  Two
pieces of the source call user-supplied code and are out of the model's
scope: a component with a hand-written `save`/`load` pair
(`StreamHelper<true, false, _>`) is modelled as streaming nothing, and
every theorem below hypothesises `Column.isPod` so the branch is never
taken; `IStream` read failures past the end of the stream surface as
`LoadErr.readPastEnd` with the structures as of the failed read.  The
float thresholds of the maintenance helpers are fixed at their defaults
(`0.25f`, `0.75f`) and compared exactly in rationals; every concrete
evaluation below exercises only ratios on which `float` arithmetic is
exact. -/

/-- The exceptions that `Ecs::load` can let escape. -/
inductive LoadErr where
  | badStreamVersion
  | readPastEnd
  | invalidDataStream
  | cannotSkipComponent
  | invalidPodDataVersion
  deriving Repr, DecidableEq

/-- A value as `w` little-endian bytes (raw memory of a `w`-byte POD). -/
def bytesLE : Nat → Nat → List Nat
  | 0, _ => []
  | w + 1, v => v % 256 :: bytesLE w (v / 256)

/-- Rebuild the value from little-endian bytes. -/
def decodeLE : List Nat → Nat
  | [] => 0
  | b :: bs => b % 256 + 256 * decodeLE bs

/-- `uint32` little-endian. -/
def u32le (v : Nat) : List Nat := bytesLE 4 v

/-- `stream.read(buf, n)`: take `n` bytes or fail. -/
def readBytes (n : Nat) (s : List Nat) : Option (List Nat × List Nat) :=
  if n ≤ s.length then some (s.take n, s.drop n) else none

/-- Read one `uint32`. -/
def readU32 (s : List Nat) : Option (Nat × List Nat) :=
  match readBytes 4 s with
  | some (bs, rest) => some (decodeLE bs, rest)
  | none => none

/-- Split a block into `n` chunks of `w` bytes and decode each. -/
def decodeChunks (w : Nat) : Nat → List Nat → List Nat
  | 0, _ => []
  | n + 1, s => decodeLE (s.take w) :: decodeChunks w n (s.drop w)

/-- `detail::writeStorage` (Ecs.hh 517-522): the element count as
`uint32`, then the elements as raw memory (`w` bytes each). -/
def writeStorage (w : Nat) (v : List Nat) : List Nat :=
  u32le v.length ++ v.flatMap (bytesLE w)

/-- `detail::readStorage` (Ecs.hh 524-531): read the count, clear,
resize, read the raw block. -/
def readStorage (w : Nat) (s : List Nat) : Option (List Nat × List Nat) :=
  match readU32 s with
  | none => none
  | some (count, r) =>
    match readBytes (w * count) r with
    | none => none
    | some (bs, r2) => some (decodeChunks w count bs, r2)

/-- The payload streamed for one column by `StreamHelper::save`
(Ecs.hh 489-514): nothing for `ComponentFlagNeverSerialize`
(`StreamHelper<false, _, _>`), the raw POD block for a POD-streamed
component; a user-written serializer is external code and is modelled as
streaming nothing (no theorem exercises it). -/
def columnPayload (c : Column Nat) : List Nat :=
  if c.neverSerialize then []
  else if c.isPod then c.cells.flatMap (bytesLE c.meta.size)
  else []

/-- One component record of `ArchetypeHelper::save` (Ecs.hh 1445-1499):
nothing when the storage is empty, otherwise the name length truncated to
one byte (`(uint8_t)compNameLen`, Ecs.hh 1461; the `<= 255` check is a
debug-only assert), the name bytes, the version byte, the patched-in
total size (which counts its own four bytes), and the payload. -/
def saveColumn (c : Column Nat) : List Nat :=
  if c.cells.length = 0 then []
  else
    [c.meta.name.length % 256] ++ c.meta.name ++ [c.meta.version % 256]
      ++ u32le (4 + (columnPayload c).length) ++ columnPayload c

namespace Archetype

/-- `ArchetypeHelper<true, …>::save` (Ecs.hh 1438-1502): the state bytes,
the free list, the component records in tuple order, and the terminating
zero byte. -/
def saveBody (a : Archetype Nat) : List Nat :=
  writeStorage 1 a.state ++ writeStorage 4 a.free
    ++ a.tuple.flatMap saveColumn ++ [0]

/-- `Archetype::save` (Ecs.hh 1175-1178): the `AllowSerialization = false`
specialisation (Ecs.hh 427-435) streams nothing. -/
def saveBytes (a : Archetype Nat) : List Nat :=
  if a.allowSerialization then saveBody a else []

end Archetype

/-- `Ecs::save` (Ecs.cpp 107-137): stream version 2, archetype count,
then per archetype the one-byte id, the patched-in body size and the
body. -/
def ecsSave (e : Ecs Nat) : List Nat :=
  u32le 2 ++ u32le e.archetypes.length
    ++ e.archetypes.flatMap (fun entry =>
        [entry.2.id % 256] ++ u32le (Archetype.saveBytes entry.2).length
          ++ Archetype.saveBytes entry.2)

/-- The fold `(streamComponent(...), ...)` of `ArchetypeHelper::load`
(Ecs.hh 1580-1607): walk the tuple in order carrying the `loaded` flag;
on the first name match run `StreamHelper::load` — nothing for
`NeverSerialize`, the raw POD block for a POD-streamed component (after
the version check), and nothing for a user-written loader, which is
external code no theorem exercises — and throw `InvalidDataStream` on a
second match. -/
def streamComponents (nm : List Nat) (dv : Nat) :
    List (Column Nat) → Bool → List Nat →
      (List (Column Nat) × List Nat × Except LoadErr Bool)
  | [], loaded, s => ([], s, .ok loaded)
  | c :: cs, loaded, s =>
    if c.meta.name == nm then
      if loaded then (c :: cs, s, .error .invalidDataStream)
      else if c.neverSerialize then
        match streamComponents nm dv cs true s with
        | (cs2, s2, res) => (c :: cs2, s2, res)
      else if c.isPod then
        if dv != c.meta.version % 256 then
          (c :: cs, s, .error .invalidPodDataVersion)
        else
          match readBytes (c.meta.size * c.cells.length) s with
          | none => (c :: cs, s, .error .readPastEnd)
          | some (bs, s2) =>
            match streamComponents nm dv cs true s2 with
            | (cs2, s3, res) =>
              ({ c with cells := decodeChunks c.meta.size c.cells.length bs } :: cs2,
                s3, res)
      else
        match streamComponents nm dv cs true s with
        | (cs2, s2, res) => (c :: cs2, s2, res)
    else
      match streamComponents nm dv cs loaded s with
      | (cs2, s2, res) => (c :: cs2, s2, res)

/-- The record loop of `ArchetypeHelper::load` (Ecs.hh 1555-1628): read
the name length (zero terminates), the name, the version byte, for
streams of version ≥ 2 the total size; dispatch on the tuple; then skip
unread payload, or the whole payload of an unrecognised component
(impossible before stream version 2: `CannotSkipComponentException`).
Every iteration consumes at least one byte, so `fuel` bounds the
iteration count; callers pass the stream length. -/
def loadComponentsFuel (v : Nat) :
    Nat → List (Column Nat) → List Nat →
      (List (Column Nat) × List Nat × Except LoadErr Unit)
  | 0, cols, s => (cols, s, .error .readPastEnd)
  | fuel + 1, cols, s =>
    match s with
    | [] => (cols, s, .error .readPastEnd)
    | b :: r =>
      if b = 0 then (cols, r, .ok ())
      else
        match readBytes b r with
        | none => (cols, r, .error .readPastEnd)
        | some (nm, r1) =>
          match r1 with
          | [] => (cols, r1, .error .readPastEnd)
          | dv :: r2 =>
            let canSkip := 2 ≤ v
            match (if canSkip then readU32 r2 else some (4, r2)) with
            | none => (cols, r2, .error .readPastEnd)
            | some (ts, r3) =>
              let dataSize := ts - 4
              match streamComponents nm dv cols false r3 with
              | (cols2, s4, .error er) => (cols2, s4, .error er)
              | (cols2, s4, .ok loaded) =>
                if loaded then
                  if canSkip then
                    let bytesRead := r3.length - s4.length
                    if bytesRead < dataSize then
                      match readBytes (dataSize - bytesRead) s4 with
                      | none => (cols2, s4, .error .readPastEnd)
                      | some (_, s5) => loadComponentsFuel v fuel cols2 s5
                    else if dataSize < bytesRead then
                      (cols2, s4, .error .invalidDataStream)
                    else loadComponentsFuel v fuel cols2 s4
                  else loadComponentsFuel v fuel cols2 s4
                else
                  if canSkip then
                    match readBytes dataSize s4 with
                    | none => (cols2, s4, .error .readPastEnd)
                    | some (_, s5) => loadComponentsFuel v fuel cols2 s5
                  else (cols2, s4, .error .cannotSkipComponent)

namespace Archetype

/-- `ArchetypeHelper<true, …>::load` (Ecs.hh 1529-1628): read the state
bytes and the free list, clear and resize every component storage to the
state size (default-constructed cells), then run the record loop.
`SetEntity` only hands live components their own handle and is modelled
as not changing cells. -/
def loadBody (a : Archetype Nat) (s : List Nat) (v : Nat) :
    Archetype Nat × List Nat × Except LoadErr Unit :=
  match readStorage 1 s with
  | none => (a, s, .error .readPastEnd)
  | some (st, s1) =>
    match readStorage 4 s1 with
    | none => ({ a with state := st }, s1, .error .readPastEnd)
    | some (fr, s2) =>
      let a1 : Archetype Nat := { a with
        state := st, free := fr,
        tuple := a.tuple.map (fun c =>
          { c with cells := List.replicate st.length c.init }) }
      match loadComponentsFuel v s2.length a1.tuple s2 with
      | (cols, s3, res) => ({ a1 with tuple := cols }, s3, res)

/-- `Archetype::load` (Ecs.hh 1185-1188): the `AllowSerialization = false`
specialisation reads nothing. -/
def loadBytes (a : Archetype Nat) (s : List Nat) (v : Nat) :
    Archetype Nat × List Nat × Except LoadErr Unit :=
  if a.allowSerialization then a.loadBody s v else (a, s, .ok ())

/-- `AutoCompressNCalls::compressNCalls` (Ecs.hh 438-452): post-increment
then compare; the counter resets when the threshold is reached.  Enabled
only with both `CompressableNoEntities` and `AutoCompressNCalls` flags. -/
def compressNCallsStep (a : Archetype Nat) : Archetype Nat × Bool :=
  if a.flags &&& (ArchetypeFlagCompressableNoEntities ||| ArchetypeFlagAutoCompressNCalls)
      == ArchetypeFlagCompressableNoEntities ||| ArchetypeFlagAutoCompressNCalls then
    if a.currentCalls < a.nCalls then
      ({ a with currentCalls := (a.currentCalls + 1) % 2 ^ 32 }, false)
    else ({ a with currentCalls := 0 }, true)
  else (a, false)

/-- `AutoCompressFreeThreshold::compressFreeThreshold` (Ecs.hh 454-462)
at the default threshold `0.25f`: `free.size() / capacity() ≥ 1/4`,
compared exactly in rationals. -/
def compressFreeThresholdCheck (a : Archetype Nat) : Bool :=
  if a.flags &&& (ArchetypeFlagCompressableNoEntities ||| ArchetypeFlagAutoCompressFreeThreshold)
      == ArchetypeFlagCompressableNoEntities ||| ArchetypeFlagAutoCompressFreeThreshold then
    decide (a.cap ≤ 4 * a.free.length)
  else false

/-- `AutoReserveNLeft::reserveNLeft` (Ecs.hh 465-475) at the default
`m_nLeft`: enabled only when the flag is set and the storage can
reallocate. -/
def reserveNLeftCheck (a : Archetype Nat) : Bool :=
  if (a.flags &&& ArchetypeFlagAutoReserveNLeft != 0) && a.growable then
    decide (a.cap - a.size ≤ a.nLeft)
  else false

/-- `AutoReserveFullThreshold::reserveFullThreshold` (Ecs.hh 477-487) at
the default threshold `0.75f`: `state.size() / capacity() ≥ 3/4`,
compared exactly in rationals. -/
def reserveFullThresholdCheck (a : Archetype Nat) : Bool :=
  if (a.flags &&& ArchetypeFlagAutoReserveFullThreshold != 0) && a.growable then
    decide (3 * a.cap ≤ 4 * a.state.length)
  else false

/-- `Archetype::performMaintenance` (Ecs.hh 1104-1113). -/
def performMaintenance (a : Archetype Nat) : Archetype Nat :=
  let p := compressNCallsStep a
  let a1 := if p.2 || compressFreeThresholdCheck p.1 then compress p.1 else p.1
  if reserveNLeftCheck a1 || reserveFullThresholdCheck a1 then enlarge a1 else a1

end Archetype

/-- `Ecs::findArchetypeById` (Ecs.hh 891): the archetype registered under
this id.  `Ecs::insert` (Ecs.cpp 100-105) throws `DoubleId` on a
duplicate id, so ids are unique and the first match is the match. -/
def findById (l : List (Nat × Archetype Nat)) (idb : Nat) :
    Option (Archetype Nat) :=
  match l.find? (fun en => en.2.id == idb) with
  | some en => some en.2
  | none => none

/-- Replace the archetype registered under `idb` (unique by `insert`). -/
def setById (l : List (Nat × Archetype Nat)) (idb : Nat) (a : Archetype Nat) :
    List (Nat × Archetype Nat) :=
  l.map (fun en => if en.2.id == idb then (en.1, a) else en)

/-- The record loop of `Ecs::load` (Ecs.cpp 160-182): per record read the
one-byte archetype id and the body size; an unregistered id skips the
body, a registered one loads it. -/
def ecsLoadLoop (v : Nat) :
    Nat → List (Nat × Archetype Nat) → List Nat →
      (List (Nat × Archetype Nat) × List Nat × Except LoadErr Unit)
  | 0, l, s => (l, s, .ok ())
  | n + 1, l, s =>
    match s with
    | [] => (l, s, .error .readPastEnd)
    | idb :: r =>
      match readU32 r with
      | none => (l, r, .error .readPastEnd)
      | some (sz, r1) =>
        match findById l idb with
        | none =>
          match readBytes sz r1 with
          | none => (l, r1, .error .readPastEnd)
          | some (_, r2) => ecsLoadLoop v n l r2
        | some a =>
          match Archetype.loadBytes a r1 v with
          | (a2, r2, .error er) => (setById l idb a2, r2, .error er)
          | (a2, r2, .ok _) => ecsLoadLoop v n (setById l idb a2) r2

/-- `Ecs::load` (Ecs.cpp 139-190): read the stream version and throw
`BadStreamVersion` if it exceeds 2 — before anything is touched; then
reset every archetype, read the archetype count, run the record loop, and
finish with `performMaintenance` on every archetype.  The registry is
returned alongside the outcome so that the state at an escaped exception
is visible. -/
def ecsLoad (e : Ecs Nat) (s : List Nat) : Ecs Nat × Except LoadErr Unit :=
  match readU32 s with
  | none => (e, .error .readPastEnd)
  | some (v, r) =>
    if 2 < v then (e, .error .badStreamVersion)
    else
      let l1 := e.archetypes.map (fun en => (en.1, en.2.reset))
      match readU32 r with
      | none => (⟨l1⟩, .error .readPastEnd)
      | some (count, r1) =>
        match ecsLoadLoop v count l1 r1 with
        | (l2, _, .error er) => (⟨l2⟩, .error er)
        | (l2, _, .ok _) =>
          (⟨l2.map (fun en => (en.1, en.2.performMaintenance))⟩, .ok ())

/-! ## Claim C8 -/

theorem streamComponents_not_bad (nm : List Nat) (dv : Nat) :
    ∀ (cols : List (Column Nat)) (loaded : Bool) (s : List Nat),
      (streamComponents nm dv cols loaded s).2.2 ≠ .error .badStreamVersion := by
  intro cols
  induction cols with
  | nil => intro loaded s h; simp [streamComponents] at h
  | cons c cs ih =>
    intro loaded s h
    unfold streamComponents at h
    repeat' first | split at h | dsimp only at h
    all_goals try dsimp only at h
    all_goals first
      | exact Except.noConfusion h
      | exact LoadErr.noConfusion (Except.error.inj h)
      | exact ih _ _ h
      | (rename_i heq
         exact ih _ _ (by rw [heq]; simpa using h))

theorem loadComponentsFuel_not_bad (v : Nat) :
    ∀ (fuel : Nat) (cols : List (Column Nat)) (s : List Nat),
      (loadComponentsFuel v fuel cols s).2.2 ≠ .error .badStreamVersion := by
  intro fuel
  induction fuel with
  | zero => intro cols s h; simp [loadComponentsFuel] at h
  | succ fuel ih =>
    intro cols s h
    unfold loadComponentsFuel at h
    repeat' first | split at h | dsimp only at h
    all_goals try dsimp only at h
    all_goals first
      | exact Except.noConfusion h
      | exact LoadErr.noConfusion (Except.error.inj h)
      | exact ih _ _ h
      | exact streamComponents_not_bad _ _ _ _ _ h
      | (rename_i heq
         exact streamComponents_not_bad _ _ _ _ _ (by rw [heq]; simpa using h))

theorem loadBytes_not_bad (a : Archetype Nat) (s : List Nat) (v : Nat) :
    (a.loadBytes s v).2.2 ≠ .error .badStreamVersion := by
  intro h
  unfold Archetype.loadBytes Archetype.loadBody at h
  repeat' first | split at h | dsimp only at h
  all_goals try dsimp only at h
  all_goals first
    | exact Except.noConfusion h
    | exact LoadErr.noConfusion (Except.error.inj h)
    | exact loadComponentsFuel_not_bad _ _ _ _ h
    | (rename_i heq
       exact loadComponentsFuel_not_bad _ _ _ _ (by rw [heq]; simpa using h))

theorem ecsLoadLoop_not_bad (v : Nat) :
    ∀ (n : Nat) (l : List (Nat × Archetype Nat)) (s : List Nat),
      (ecsLoadLoop v n l s).2.2 ≠ .error .badStreamVersion := by
  intro n
  induction n with
  | zero => intro l s h; simp [ecsLoadLoop] at h
  | succ n ih =>
    intro l s h
    unfold ecsLoadLoop at h
    repeat' first | split at h | dsimp only at h
    all_goals try dsimp only at h
    all_goals first
      | exact Except.noConfusion h
      | exact LoadErr.noConfusion (Except.error.inj h)
      | exact ih _ _ h
      | exact loadBytes_not_bad _ _ _ h
      | (rename_i heq
         exact loadBytes_not_bad _ _ _ (by rw [heq]; simpa using h))

/-- **C8** counterexample: loading a version-3 stream into a registry
holding live entities raises `BadStreamVersion`, yet no archetype has
been cleared — the registry is exactly as before the call, with a
non-empty slot table.  The claimed order (reset first, version check
second) would have left every slot table empty. -/
theorem claim_C8_counterexample :
    (ecsLoad ecsFix (u32le 3)).2 = .error .badStreamVersion ∧
    (ecsLoad ecsFix (u32le 3)).1.archetypes = ecsFix.archetypes ∧
    ¬ (∀ en ∈ (ecsLoad ecsFix (u32le 3)).1.archetypes, en.2.state = []) := by
  decide

/-- **C8** (amended): `Ecs::load` reads `streamVersion` first and raises
`BadStreamVersion` before touching any archetype; whenever the call
raises `BadStreamVersion`, the registry is unchanged (not cleared), and
the stream's version field indeed exceeded 2. -/
theorem claim_C8_loader_order_amended (e : Ecs Nat) (s : List Nat)
    (h : (ecsLoad e s).2 = .error .badStreamVersion) :
    (ecsLoad e s).1 = e ∧ ∃ v r, readU32 s = some (v, r) ∧ 2 < v := by
  unfold ecsLoad at h ⊢
  cases hr : readU32 s with
  | none => rw [hr] at h; exact absurd h (by simp)
  | some vr =>
    obtain ⟨v, r⟩ := vr
    rw [hr] at h
    dsimp only at h ⊢
    by_cases hv : 2 < v
    · rw [if_pos hv] at h ⊢
      exact ⟨rfl, v, r, rfl, hv⟩
    · rw [if_neg hv] at h
      exfalso
      cases hr2 : readU32 r with
      | none => rw [hr2] at h; exact absurd h (by simp)
      | some cr =>
        obtain ⟨count, r1⟩ := cr
        rw [hr2] at h
        dsimp only at h
        cases hloop : ecsLoadLoop v count
            (e.archetypes.map (fun en => (en.1, en.2.reset))) r1 with
        | mk l2 rest2 =>
          obtain ⟨s2, res⟩ := rest2
          rw [hloop] at h
          cases res with
          | ok u => simp at h
          | error er =>
            dsimp only at h
            have hnb := ecsLoadLoop_not_bad v count
              (e.archetypes.map (fun en => (en.1, en.2.reset))) r1
            rw [hloop] at hnb
            exact hnb (by simpa using h)

/-- Witness for the amended C8 on the concrete registry and a version-3
stream. -/
theorem claim_C8_loader_order_amended_witness :
    (ecsLoad ecsFix (u32le 3)).1 = ecsFix ∧
    ∃ v r, readU32 (u32le 3) = some (v, r) ∧ 2 < v :=
  claim_C8_loader_order_amended ecsFix (u32le 3) (by decide)

/-! ## Claim C1 -/

/-- The observable content claim C1 compares: per registry entry the
mask, the archetype id, the state bytes, the free list, and every
column's cells. -/
def snapshot (e : Ecs Nat) :
    List (Nat × Nat × List Nat × List Nat × List (List Nat)) :=
  e.archetypes.map (fun en =>
    (en.1, en.2.id, en.2.state, en.2.free, en.2.tuple.map (fun c => c.cells)))

/-- A compressable archetype with the free-threshold auto-compress policy
(`ArchetypeFlagCompressableNoEntities ||| ArchetypeFlagAutoCompressFreeThreshold`). -/
def archAuto : Archetype Nat := Archetype.mk0 7 5 false [natCol] 2

def archAuto1 : Archetype Nat :=
  match archAuto.create none with
  | .ok p => p.1
  | .error _ => archAuto

def archAuto2 : Archetype Nat :=
  match archAuto1.create none with
  | .ok p => p.1
  | .error _ => archAuto1

/-- Slot 0 removed: one live slot, one free slot, free ratio 1/2. -/
def archAuto3 : Archetype Nat := archAuto2.remove (1 <<< 24)

def ecsAuto : Ecs Nat := ⟨[(1, archAuto3)]⟩


theorem bytesLE_length (w : Nat) : ∀ v, (bytesLE w v).length = w := by
  induction w with
  | zero => intro v; rfl
  | succ w ih => intro v; simp [bytesLE, ih]

theorem decodeLE_bytesLE (w : Nat) : ∀ v, v < 256 ^ w →
    decodeLE (bytesLE w v) = v := by
  induction w with
  | zero =>
    intro v hv
    interval_cases v
    rfl
  | succ w ih =>
    intro v hv
    rw [bytesLE, decodeLE, Nat.mod_mod_of_dvd v dvd_rfl]
    rw [ih (v / 256) (by
      rw [Nat.div_lt_iff_lt_mul (by norm_num)]
      rw [pow_succ] at hv
      exact hv)]
    exact Nat.mod_add_div v 256

theorem readBytes_append (xs rest : List Nat) :
    readBytes xs.length (xs ++ rest) = some (xs, rest) := by
  unfold readBytes
  rw [if_pos (by simp), List.take_left, List.drop_left]

theorem readU32_u32le (v : Nat) (hv : v < 2 ^ 32) (rest : List Nat) :
    readU32 (u32le v ++ rest) = some (v, rest) := by
  have hrb : readBytes 4 (bytesLE 4 v ++ rest) = some (bytesLE 4 v, rest) := by
    have h := readBytes_append (bytesLE 4 v) rest
    rwa [bytesLE_length] at h
  unfold readU32 u32le
  rw [hrb]
  dsimp only
  rw [decodeLE_bytesLE 4 v (by norm_num; exact hv)]

theorem flatMap_bytesLE_length (w : Nat) (l : List Nat) :
    (l.flatMap (bytesLE w)).length = w * l.length := by
  induction l with
  | nil => simp
  | cons x xs ih =>
    rw [List.flatMap_cons, List.length_append, bytesLE_length, ih,
      List.length_cons, Nat.mul_succ]
    omega

theorem decodeChunks_flatMap (w : Nat) (l : List Nat)
    (hl : ∀ x ∈ l, x < 256 ^ w) :
    decodeChunks w l.length (l.flatMap (bytesLE w)) = l := by
  induction l with
  | nil => rfl
  | cons x xs ih =>
    rw [List.flatMap_cons, List.length_cons, decodeChunks]
    have hw : (bytesLE w x).length = w := bytesLE_length w x
    rw [List.take_append_of_le_length (by rw [hw]), List.take_of_length_le (by rw [hw]),
      List.drop_append_of_le_length (by rw [hw]), List.drop_of_length_le (by rw [hw]),
      List.nil_append]
    rw [decodeLE_bytesLE w x (hl x (by simp)), ih (fun y hy => hl y (by simp [hy]))]

theorem readStorage_writeStorage (w : Nat) (l : List Nat) (rest : List Nat)
    (hl : ∀ x ∈ l, x < 256 ^ w) (hlen : l.length < 2 ^ 32) :
    readStorage w (writeStorage w l ++ rest) = some (l, rest) := by
  unfold readStorage writeStorage
  rw [List.append_assoc, readU32_u32le l.length hlen]
  dsimp only
  have hfb : readBytes (w * l.length) (l.flatMap (bytesLE w) ++ rest)
      = some (l.flatMap (bytesLE w), rest) := by
    have h := readBytes_append (l.flatMap (bytesLE w)) rest
    rwa [flatMap_bytesLE_length] at h
  rw [hfb]
  dsimp only
  rw [decodeChunks_flatMap w l hl]

theorem streamComponents_skip_all (nm : List Nat) (dv : Nat) :
    ∀ (cols : List (Column Nat)) (loaded : Bool) (s : List Nat),
      (∀ c ∈ cols, (c.meta.name == nm) = false) →
      streamComponents nm dv cols loaded s = (cols, s, .ok loaded) := by
  intro cols
  induction cols with
  | nil => intro loaded s h; rfl
  | cons c cs ih =>
    intro loaded s h
    unfold streamComponents
    rw [h c (by simp)]
    simp only [Bool.false_eq_true, if_false]
    rw [ih loaded s (fun x hx => h x (by simp [hx]))]

theorem streamComponents_append_skip (nm : List Nat) (dv : Nat) :
    ∀ (pre : List (Column Nat)) (cols : List (Column Nat)) (loaded : Bool)
      (s : List Nat),
      (∀ c ∈ pre, (c.meta.name == nm) = false) →
      streamComponents nm dv (pre ++ cols) loaded s =
        (pre ++ (streamComponents nm dv cols loaded s).1,
          (streamComponents nm dv cols loaded s).2.1,
          (streamComponents nm dv cols loaded s).2.2) := by
  intro pre
  induction pre with
  | nil => intro cols loaded s h; rfl
  | cons p ps ih =>
    intro cols loaded s h
    rw [List.cons_append]
    conv_lhs => unfold streamComponents
    rw [h p (by simp)]
    simp only [Bool.false_eq_true, if_false]
    rw [ih cols loaded s (fun x hx => h x (by simp [hx]))]
    rfl

theorem streamComponents_hit (nm : List Nat) (dv : Nat) (c : Column Nat)
    (cs : List (Column Nat)) (s bs s2 : List Nat)
    (hname : (c.meta.name == nm) = true)
    (hns : c.neverSerialize = false)
    (hpod : c.isPod = true)
    (hver : dv = c.meta.version % 256)
    (hrb : readBytes (c.meta.size * c.cells.length) s = some (bs, s2))
    (htail : ∀ x ∈ cs, (x.meta.name == nm) = false) :
    streamComponents nm dv (c :: cs) false s =
      ({ c with cells := decodeChunks c.meta.size c.cells.length bs } :: cs,
        s2, .ok true) := by
  unfold streamComponents
  rw [hname]
  simp only [if_true, Bool.false_eq_true, if_false, hns, hpod, if_true]
  have hbne : (dv != c.meta.version % 256) = false := by
    rw [hver]; simp
  rw [hbne]
  simp only [Bool.false_eq_true, if_false]
  rw [hrb]
  dsimp only
  rw [streamComponents_skip_all nm dv cs true s2 htail]

/-- `storage.clear(); storage.resize(stateCount)` during load: the cells
become `stateCount` default-constructed components. -/
def resetCol (n : Nat) (c : Column Nat) : Column Nat :=
  { c with cells := List.replicate n c.init }

theorem columnPayload_pod (c : Column Nat) (hns : c.neverSerialize = false)
    (hpod : c.isPod = true) :
    columnPayload c = c.cells.flatMap (bytesLE c.meta.size) := by
  unfold columnPayload
  rw [hns, hpod]
  simp

theorem resetCol_cells_length (n : Nat) (c : Column Nat) :
    (resetCol n c).cells.length = n := by
  simp [resetCol]

theorem loadComponents_records (n : Nat) (hn : n ≠ 0) :
    ∀ (todo done : List (Column Nat)) (fuel : Nat) (rest : List Nat),
      todo.length < fuel →
      ((done ++ todo).map (fun c => c.meta.name)).Nodup →
      (∀ c ∈ todo, c.cells.length = n) →
      (∀ c ∈ todo, c.neverSerialize = false) →
      (∀ c ∈ todo, c.isPod = true) →
      (∀ c ∈ todo, c.meta.name ≠ []) →
      (∀ c ∈ todo, c.meta.name.length ≤ 255) →
      (∀ c ∈ todo, ∀ x ∈ c.cells, x < 256 ^ c.meta.size) →
      (∀ c ∈ todo, 4 + c.meta.size * n < 2 ^ 32) →
      loadComponentsFuel 2 fuel (done ++ todo.map (resetCol n))
          (todo.flatMap saveColumn ++ 0 :: rest)
        = (done ++ todo, rest, .ok ()) := by
  intro todo
  induction todo with
  | nil =>
    intro done fuel rest hfuel _ _ _ _ _ _ _ _
    cases fuel with
    | zero => omega
    | succ fuel =>
      simp only [List.map_nil, List.append_nil, List.flatMap_nil, List.nil_append]
      rfl
  | cons c cs ih =>
    intro done fuel rest hfuel hnodup hlen hns hpod hname hnamelen hbound hsz
    cases fuel with
    | zero => omega
    | succ fuel =>
      have hcn : c.cells.length = n := hlen c (by simp)
      have hne : ¬ c.cells.length = 0 := by rw [hcn]; exact hn
      have hplen : (columnPayload c).length = c.meta.size * n := by
        rw [columnPayload_pod c (hns c (by simp)) (hpod c (by simp)),
          flatMap_bytesLE_length, hcn]
      have hnn : ¬ c.meta.name.length = 0 := by
        intro h0
        exact hname c (by simp) (List.eq_nil_of_length_eq_zero h0)
      have hmapnd := hnodup
      rw [List.map_append, List.map_cons] at hmapnd
      have hdisj := List.disjoint_of_nodup_append hmapnd
      have hdone : ∀ x ∈ done, (x.meta.name == c.meta.name) = false := by
        intro x hx
        rw [beq_eq_false_iff_ne]
        intro hxn
        exact hdisj (List.mem_map_of_mem _ hx)
          (by rw [hxn]; exact List.mem_cons_self _ _)
      have hcsnd := hmapnd.of_append_right
      have hnotin := (List.nodup_cons.mp hcsnd).1
      have htail0 : ∀ x ∈ cs, (x.meta.name == c.meta.name) = false := by
        intro x hx
        rw [beq_eq_false_iff_ne]
        intro hxn
        exact hnotin (by rw [← hxn]; exact List.mem_map_of_mem _ hx)
      have htail : ∀ x ∈ cs.map (resetCol n), (x.meta.name == c.meta.name) = false := by
        intro x hx
        obtain ⟨y, hy, rfl⟩ := List.mem_map.mp hx
        exact htail0 y hy
      have hrestore : { resetCol n c with
          cells := decodeChunks (resetCol n c).meta.size
            (resetCol n c).cells.length (columnPayload c) } = c := by
        rw [resetCol_cells_length]
        have hsz0 : (resetCol n c).meta.size = c.meta.size := rfl
        rw [hsz0, ← hcn,
          columnPayload_pod c (hns c (by simp)) (hpod c (by simp)),
          decodeChunks_flatMap c.meta.size c.cells (hbound c (by simp))]
        rfl
      have hnmod : c.meta.name.length % 256 = c.meta.name.length :=
        Nat.mod_eq_of_lt (Nat.lt_succ_of_le (hnamelen c (by simp)))
      rw [List.map_cons, List.flatMap_cons, saveColumn, if_neg hne, hnmod]
      simp only [List.append_assoc, List.singleton_append, List.cons_append,
        List.nil_append]
      conv_lhs => rw [loadComponentsFuel]
      dsimp only
      rw [if_neg hnn]
      rw [readBytes_append c.meta.name]
      dsimp only
      rw [if_pos (by norm_num : (2:Nat) ≤ 2)]
      rw [readU32_u32le (4 + (columnPayload c).length)
        (by rw [hplen]; exact hsz c (by simp)) _]
      dsimp only
      rw [streamComponents_append_skip c.meta.name (c.meta.version % 256) done
        (resetCol n c :: cs.map (resetCol n)) false _ hdone]
      rw [streamComponents_hit c.meta.name (c.meta.version % 256) (resetCol n c)
        (cs.map (resetCol n)) _ (columnPayload c)
        (cs.flatMap saveColumn ++ 0 :: rest) (by simp [resetCol])
        (by simpa [resetCol, Column.neverSerialize] using hns c (by simp))
        (by simpa [resetCol, Column.isPod] using hpod c (by simp)) rfl
        (by
          rw [show (resetCol n c).meta.size * (resetCol n c).cells.length
              = (columnPayload c).length from by
            rw [resetCol_cells_length, hplen]; rfl]
          exact readBytes_append _ _)
        htail]
      rw [hrestore]
      dsimp only
      rw [if_pos (by norm_num : (2:Nat) ≤ 2)]
      have harith : (columnPayload c ++ (cs.flatMap saveColumn ++ 0 :: rest)).length
          - (cs.flatMap saveColumn ++ 0 :: rest).length
          = 4 + (columnPayload c).length - 4 := by
        simp
      rw [harith, if_neg (lt_irrefl _)]
      have hstep : done ++ c :: cs.map (resetCol n)
          = (done ++ [c]) ++ cs.map (resetCol n) := by simp
      rw [hstep]
      rw [ih (done ++ [c]) fuel rest (by
          have := hfuel
          simp only [List.length_cons] at this
          omega)
        (by
          have hx : (done ++ [c]) ++ cs = done ++ c :: cs := by simp
          rw [hx]
          exact hnodup)
        (fun x hx => hlen x (by simp [hx]))
        (fun x hx => hns x (by simp [hx]))
        (fun x hx => hpod x (by simp [hx]))
        (fun x hx => hname x (by simp [hx]))
        (fun x hx => hnamelen x (by simp [hx]))
        (fun x hx => hbound x (by simp [hx]))
        (fun x hx => hsz x (by simp [hx]))]
      simp

theorem loadComponents_empty (v : Nat) (cols : List (Column Nat)) (fuel : Nat)
    (rest : List Nat) (hfuel : 0 < fuel) :
    loadComponentsFuel v fuel cols (0 :: rest) = (cols, rest, .ok ()) := by
  cases fuel with
  | zero => omega
  | succ fuel => rfl

theorem saveColumn_length_pos (c : Column Nat) (h : c.cells.length ≠ 0) :
    1 ≤ (saveColumn c).length := by
  unfold saveColumn
  rw [if_neg h]
  simp

theorem flatMap_saveColumn_length (l : List (Column Nat)) (n : Nat) (hn : n ≠ 0)
    (h : ∀ c ∈ l, c.cells.length = n) :
    l.length ≤ (l.flatMap saveColumn).length := by
  induction l with
  | nil => simp
  | cons c cs ih =>
    rw [List.flatMap_cons, List.length_append, List.length_cons]
    have h1 : 1 ≤ (saveColumn c).length :=
      saveColumn_length_pos c (by rw [h c (by simp)]; exact hn)
    have h2 := ih (fun x hx => h x (by simp [hx]))
    omega

theorem loadBody_saveBody (a : Archetype Nat) (rest : List Nat)
    (hst : ∀ b ∈ a.state, b < 256)
    (hstlen : a.state.length < 2 ^ 32)
    (hfr : ∀ x ∈ a.free, x < 2 ^ 32)
    (hfrlen : a.free.length < 2 ^ 32)
    (hnodup : (a.tuple.map (fun c => c.meta.name)).Nodup)
    (hlen : ∀ c ∈ a.tuple, c.cells.length = a.state.length)
    (hns : ∀ c ∈ a.tuple, c.neverSerialize = false)
    (hpod : ∀ c ∈ a.tuple, c.isPod = true)
    (hname : ∀ c ∈ a.tuple, c.meta.name ≠ [])
    (hnamelen : ∀ c ∈ a.tuple, c.meta.name.length ≤ 255)
    (hbound : ∀ c ∈ a.tuple, ∀ x ∈ c.cells, x < 256 ^ c.meta.size)
    (hsz : ∀ c ∈ a.tuple, 4 + c.meta.size * a.state.length < 2 ^ 32) :
    Archetype.loadBody (a.reset) (Archetype.saveBody a ++ rest) 2
      = (a, rest, .ok ()) := by
  unfold Archetype.loadBody Archetype.saveBody
  simp only [List.append_assoc, List.singleton_append]
  rw [readStorage_writeStorage 1 a.state _
    (by intro x hx; rw [pow_one]; exact hst x hx) hstlen]
  dsimp only
  rw [readStorage_writeStorage 4 a.free _
    (by intro x hx; norm_num; exact hfr x hx) hfrlen]
  dsimp only
  have htuple : (Archetype.reset a).tuple.map
      (fun c => { c with cells := List.replicate a.state.length c.init })
      = a.tuple.map (resetCol a.state.length) := by
    unfold Archetype.reset
    dsimp only
    rw [List.map_map]
    rfl
  rw [htuple]
  by_cases hn : a.state.length = 0
  · have hrec : a.tuple.flatMap saveColumn = [] := by
      rw [List.flatMap_eq_nil_iff]
      intro c hc
      unfold saveColumn
      rw [if_pos (by rw [hlen c hc, hn])]
    rw [hrec, List.nil_append]
    rw [loadComponents_empty 2 _ _ _ (by simp)]
    have hres : a.tuple.map (resetCol a.state.length) = a.tuple := by
      rw [hn]
      have : ∀ c ∈ a.tuple, resetCol 0 c = c := by
        intro c hc
        have hc0 : c.cells = [] :=
          List.eq_nil_of_length_eq_zero (by rw [hlen c hc, hn])
        unfold resetCol
        rw [List.replicate_zero, ← hc0]
      rw [List.map_congr_left this]
      simp
    rw [hres]
    rfl
  · have hrw := loadComponents_records a.state.length hn a.tuple []
      ((a.tuple.flatMap saveColumn ++ 0 :: rest).length) rest
      (by
        have h1 := flatMap_saveColumn_length a.tuple a.state.length hn hlen
        simp only [List.length_append, List.length_cons]
        omega)
      (by simpa using hnodup) hlen hns hpod hname hnamelen hbound hsz
    rw [List.nil_append] at hrw
    rw [hrw]
    rfl

theorem mod_mul_split (q r N : Nat) (hr : r < 256) :
    (256 * q + r) % (256 * N) = 256 * (q % N) + r := by
  rw [Nat.mod_def, Nat.mod_def q N]
  have hdiv : (256 * q + r) / (256 * N) = q / N := by
    rw [← Nat.div_div_eq_div_mul, Nat.mul_add_div (by norm_num),
      Nat.div_eq_of_lt hr, Nat.add_zero]
  rw [hdiv]
  have h2 : 256 * N * (q / N) = 256 * (N * (q / N)) := by ring
  rw [h2]
  have hle : N * (q / N) ≤ q := by
    rw [Nat.mul_comm]
    exact Nat.div_mul_le_self q N
  generalize N * (q / N) = X at hle ⊢
  omega

theorem decodeLE_bytesLE_mod (w : Nat) : ∀ v,
    decodeLE (bytesLE w v) = v % 256 ^ w := by
  induction w with
  | zero => intro v; simp [bytesLE, decodeLE, Nat.mod_one]
  | succ w ih =>
    intro v
    rw [bytesLE, decodeLE, Nat.mod_mod_of_dvd v dvd_rfl, ih (v / 256)]
    rw [show (256:Nat) ^ (w + 1) = 256 * 256 ^ w from by ring]
    conv_rhs => rw [← Nat.div_add_mod v 256]
    rw [mod_mul_split (v / 256) (v % 256) (256 ^ w) (Nat.mod_lt v (by norm_num))]
    exact Nat.add_comm _ _

theorem readU32_u32le_mod (v : Nat) (rest : List Nat) :
    readU32 (u32le v ++ rest) = some (v % 2 ^ 32, rest) := by
  have hrb : readBytes 4 (bytesLE 4 v ++ rest) = some (bytesLE 4 v, rest) := by
    have h := readBytes_append (bytesLE 4 v) rest
    rwa [bytesLE_length] at h
  unfold readU32 u32le
  rw [hrb]
  dsimp only
  rw [decodeLE_bytesLE_mod]
  norm_num

theorem map_setById_skip (l : List (Nat × Archetype Nat)) (idb : Nat)
    (a : Archetype Nat) (h : ∀ x ∈ l, (x.2.id == idb) = false) :
    l.map (fun en => if en.2.id == idb then (en.1, a) else en) = l := by
  induction l with
  | nil => rfl
  | cons x xs ih =>
    rw [List.map_cons, h x (by simp), ih (fun y hy => h y (by simp [hy]))]
    simp

theorem setById_unique (l1 l2 : List (Nat × Archetype Nat)) (k : Nat)
    (b a : Archetype Nat) (idb : Nat)
    (hb : (b.id == idb) = true)
    (h1 : ∀ x ∈ l1, (x.2.id == idb) = false)
    (h2 : ∀ x ∈ l2, (x.2.id == idb) = false) :
    setById (l1 ++ (k, b) :: l2) idb a = l1 ++ (k, a) :: l2 := by
  unfold setById
  rw [List.map_append, List.map_cons, map_setById_skip l1 idb a h1,
    map_setById_skip l2 idb a h2]
  dsimp only
  rw [hb]
  simp

theorem findById_skip (l1 l2 : List (Nat × Archetype Nat)) (idb : Nat)
    (h : ∀ x ∈ l1, (x.2.id == idb) = false) :
    findById (l1 ++ l2) idb = findById l2 idb := by
  induction l1 with
  | nil => rfl
  | cons x xs ih =>
    unfold findById
    rw [List.cons_append, List.find?_cons_of_neg _ (by rw [h x (by simp)]; simp)]
    exact ih (fun y hy => h y (by simp [hy]))

theorem findById_cons_hit (l : List (Nat × Archetype Nat)) (k : Nat)
    (b : Archetype Nat) (idb : Nat) (hb : (b.id == idb) = true) :
    findById ((k, b) :: l) idb = some b := by
  unfold findById
  have hfind : List.find? (fun en => en.2.id == idb) ((k, b) :: l) = some (k, b) :=
    List.find?_cons_of_pos l hb
  rw [hfind]

/-- The well-formedness of one registered archetype that the round-trip
needs: the archetype and its components are serializable POD with the
invariants `Ecs::insert`, `validateComponentInfo` and the storage
discipline guarantee (distinct component names, non-empty and of at most
255 bytes as `save` asserts before truncating the length to `uint8`,
state bytes, 32-bit free indices and counts, one cell per slot, cell
values fitting the component's byte size). -/
def wfArchB (a : Archetype Nat) : Bool :=
  a.allowSerialization
    && decide ((a.tuple.map (fun c => c.meta.name)).Nodup)
    && a.state.all (fun b => decide (b < 256))
    && decide (a.state.length < 2 ^ 32)
    && a.free.all (fun x => decide (x < 2 ^ 32))
    && decide (a.free.length < 2 ^ 32)
    && a.tuple.all (fun c =>
        decide (c.cells.length = a.state.length)
          && !c.neverSerialize && c.isPod
          && decide (¬ c.meta.name = [])
          && decide (c.meta.name.length ≤ 255)
          && c.cells.all (fun x => decide (x < 256 ^ c.meta.size))
          && decide (4 + c.meta.size * a.state.length < 2 ^ 32))

theorem wfArchB_spec (a : Archetype Nat) (h : wfArchB a = true) :
    a.allowSerialization = true ∧
    (a.tuple.map (fun c => c.meta.name)).Nodup ∧
    (∀ b ∈ a.state, b < 256) ∧
    a.state.length < 2 ^ 32 ∧
    (∀ x ∈ a.free, x < 2 ^ 32) ∧
    a.free.length < 2 ^ 32 ∧
    (∀ c ∈ a.tuple, c.cells.length = a.state.length) ∧
    (∀ c ∈ a.tuple, c.neverSerialize = false) ∧
    (∀ c ∈ a.tuple, c.isPod = true) ∧
    (∀ c ∈ a.tuple, c.meta.name ≠ []) ∧
    (∀ c ∈ a.tuple, c.meta.name.length ≤ 255) ∧
    (∀ c ∈ a.tuple, ∀ x ∈ c.cells, x < 256 ^ c.meta.size) ∧
    (∀ c ∈ a.tuple, 4 + c.meta.size * a.state.length < 2 ^ 32) := by
  unfold wfArchB at h
  simp only [Bool.and_eq_true, List.all_eq_true, decide_eq_true_eq,
    Bool.not_eq_true'] at h
  obtain ⟨⟨⟨⟨⟨⟨h1, h2⟩, h3⟩, h4⟩, h5⟩, h6⟩, h7⟩ := h
  refine ⟨h1, h2, h3, h4, h5, h6, ?_, ?_, ?_, ?_, ?_, ?_, ?_⟩
  · exact fun c hc => (h7 c hc).1.1.1.1.1.1
  · exact fun c hc => (h7 c hc).1.1.1.1.1.2
  · exact fun c hc => (h7 c hc).1.1.1.1.2
  · exact fun c hc => (h7 c hc).1.1.1.2
  · exact fun c hc => (h7 c hc).1.1.2
  · exact fun c hc => (h7 c hc).1.2
  · exact fun c hc => (h7 c hc).2

theorem loadBytes_saveBytes (a : Archetype Nat) (rest : List Nat)
    (h : wfArchB a = true) :
    Archetype.loadBytes (a.reset) (Archetype.saveBytes a ++ rest) 2
      = (a, rest, .ok ()) := by
  obtain ⟨h1, h2, h3, h4, h5, h6, h7, h8, h9, h10, h10a, h11, h12⟩ :=
    wfArchB_spec a h
  unfold Archetype.loadBytes Archetype.saveBytes
  rw [if_pos (show (Archetype.reset a).allowSerialization = true from h1),
    if_pos h1]
  exact loadBody_saveBody a rest h3 h4 h5 h6 h2 h7 h8 h9 h10 h10a h11 h12

theorem ecsLoadLoop_save :
    ∀ (todo done : List (Nat × Archetype Nat)) (rest : List Nat),
      ((done ++ todo).map (fun en => en.2.id)).Nodup →
      (∀ en ∈ todo, en.2.id < 256) →
      (∀ en ∈ todo, wfArchB en.2 = true) →
      ecsLoadLoop 2 todo.length
          (done ++ todo.map (fun en => (en.1, en.2.reset)))
          (todo.flatMap (fun en =>
            en.2.id % 256 :: (u32le (Archetype.saveBytes en.2).length
              ++ Archetype.saveBytes en.2)) ++ rest)
        = (done ++ todo, rest, .ok ()) := by
  intro todo
  induction todo with
  | nil =>
    intro done rest _ _ _
    simp only [List.length_nil, List.map_nil, List.append_nil,
      List.flatMap_nil, List.nil_append]
    rfl
  | cons en todo ih =>
    intro done rest hnodup hid hwf
    have hidlt : en.2.id < 256 := hid en (by simp)
    have hmod : en.2.id % 256 = en.2.id := Nat.mod_eq_of_lt hidlt
    have hmapnd := hnodup
    rw [List.map_append, List.map_cons] at hmapnd
    have hdisj := List.disjoint_of_nodup_append hmapnd
    have hdone : ∀ x ∈ done, (x.2.id == en.2.id) = false := by
      intro x hx
      rw [beq_eq_false_iff_ne]
      intro hxn
      exact hdisj (List.mem_map_of_mem _ hx)
        (by rw [hxn]; exact List.mem_cons_self _ _)
    have hcsnd := hmapnd.of_append_right
    have hnotin := (List.nodup_cons.mp hcsnd).1
    have htail0 : ∀ x ∈ todo, (x.2.id == en.2.id) = false := by
      intro x hx
      rw [beq_eq_false_iff_ne]
      intro hxn
      exact hnotin (by rw [← hxn]; exact List.mem_map_of_mem _ hx)
    have htail : ∀ x ∈ todo.map (fun en => (en.1, en.2.reset)),
        (x.2.id == en.2.id) = false := by
      intro x hx
      obtain ⟨y, hy, rfl⟩ := List.mem_map.mp hx
      exact htail0 y hy
    rw [List.map_cons, List.flatMap_cons, List.length_cons]
    simp only [List.cons_append, List.append_assoc]
    conv_lhs => rw [ecsLoadLoop]
    rw [hmod]
    try dsimp only
    rw [readU32_u32le_mod]
    try dsimp only
    rw [findById_skip done _ en.2.id hdone,
      findById_cons_hit _ en.1 en.2.reset en.2.id (by simp [Archetype.reset])]
    try dsimp only
    rw [loadBytes_saveBytes en.2 _ (hwf en (by simp))]
    try dsimp only
    rw [setById_unique done (todo.map (fun en => (en.1, en.2.reset))) en.1
      en.2.reset en.2 en.2.id (by simp [Archetype.reset]) hdone htail]
    have hstep : done ++ (en.1, en.2) :: todo.map (fun en => (en.1, en.2.reset))
        = (done ++ [en]) ++ todo.map (fun en => (en.1, en.2.reset)) := by
      simp
    rw [hstep]
    rw [ih (done ++ [en]) rest
      (by
        have hx : (done ++ [en]) ++ todo = done ++ en :: todo := by simp
        rw [hx]
        exact hnodup)
      (fun x hx => hid x (by simp [hx]))
      (fun x hx => hwf x (by simp [hx]))]
    simp

/-- Neither auto-compress policy is active (the type does not derive the
enabled `AutoCompressNCalls`/`AutoCompressFreeThreshold` bases). -/
def noAutoCompressB (a : Archetype Nat) : Bool :=
  !(a.flags &&& (ArchetypeFlagCompressableNoEntities ||| ArchetypeFlagAutoCompressNCalls)
      == ArchetypeFlagCompressableNoEntities ||| ArchetypeFlagAutoCompressNCalls)
    && !(a.flags &&& (ArchetypeFlagCompressableNoEntities ||| ArchetypeFlagAutoCompressFreeThreshold)
      == ArchetypeFlagCompressableNoEntities ||| ArchetypeFlagAutoCompressFreeThreshold)

theorem enlarge_fields (b : Archetype Nat) :
    (Archetype.enlarge b).id = b.id ∧ (Archetype.enlarge b).state = b.state ∧
    (Archetype.enlarge b).free = b.free ∧ (Archetype.enlarge b).tuple = b.tuple := by
  unfold Archetype.enlarge
  split <;> simp

theorem performMaintenance_fields (a : Archetype Nat)
    (h : noAutoCompressB a = true) :
    (Archetype.performMaintenance a).id = a.id ∧
    (Archetype.performMaintenance a).state = a.state ∧
    (Archetype.performMaintenance a).free = a.free ∧
    (Archetype.performMaintenance a).tuple = a.tuple := by
  unfold noAutoCompressB at h
  simp only [Bool.and_eq_true, Bool.not_eq_true'] at h
  obtain ⟨h1, h2⟩ := h
  unfold Archetype.performMaintenance Archetype.compressNCallsStep
    Archetype.compressFreeThresholdCheck
  rw [h1]
  simp only [Bool.false_eq_true, if_false]
  try dsimp only
  rw [h2]
  simp only [Bool.false_eq_true, if_false, Bool.false_or, Bool.or_false]
  split
  · exact enlarge_fields a
  · exact ⟨rfl, rfl, rfl, rfl⟩

/-- The well-formedness of the whole registry for the round-trip:
unique 8-bit archetype ids (`Ecs::insert`), well-formed archetypes, and a
32-bit archetype count. -/
def wfEcsB (e : Ecs Nat) : Bool :=
  decide ((e.archetypes.map (fun en => en.2.id)).Nodup)
    && e.archetypes.all (fun en => decide (en.2.id < 256) && wfArchB en.2)
    && decide (e.archetypes.length < 2 ^ 32)

theorem ecsLoad_ecsSave (e : Ecs Nat) (hwf : wfEcsB e = true) :
    ecsLoad e (ecsSave e) =
      (⟨e.archetypes.map (fun en => (en.1, en.2.performMaintenance))⟩, .ok ()) := by
  unfold wfEcsB at hwf
  simp only [Bool.and_eq_true, List.all_eq_true, decide_eq_true_eq] at hwf
  obtain ⟨⟨hnodup, hall⟩, hcount⟩ := hwf
  unfold ecsSave ecsLoad
  simp only [List.append_assoc]
  rw [readU32_u32le 2 (by norm_num) _]
  try dsimp only
  rw [if_neg (by norm_num : ¬ (2:Nat) < 2)]
  rw [readU32_u32le e.archetypes.length hcount _]
  try dsimp only
  have hrec : e.archetypes.flatMap (fun entry =>
      [entry.2.id % 256] ++ (u32le (Archetype.saveBytes entry.2).length
        ++ Archetype.saveBytes entry.2))
      = e.archetypes.flatMap (fun en =>
          en.2.id % 256 :: (u32le (Archetype.saveBytes en.2).length
            ++ Archetype.saveBytes en.2)) :=
    flatMap_congr_mem (fun x hx => by simp)
  rw [hrec]
  have hloop := ecsLoadLoop_save e.archetypes [] []
    (by simpa using hnodup)
    (fun en hen => (hall en hen).1)
    (fun en hen => (hall en hen).2)
  simp only [List.nil_append, List.append_nil] at hloop
  rw [hloop]

/-- **C1** counterexample: a registry satisfying the claim's premise (no
`NeverSerialize` archetype or component; fully well-formed) whose
round-trip completes successfully but does not reproduce the free lists:
the single archetype carries `CompressableNoEntities` and
`AutoCompressFreeThreshold`, its free ratio 1/2 is above the default
threshold 1/4, so the `performMaintenance` pass at the end of `Ecs::load`
compresses it — the loaded registry has a different free list (and state
table) than the saved one. -/
theorem claim_C1_counterexample :
    wfEcsB ecsAuto = true ∧
    (∀ en ∈ ecsAuto.archetypes, Archetype.allowSerialization en.2 = true ∧
      ∀ c ∈ en.2.tuple, c.neverSerialize = false) ∧
    (ecsLoad ecsAuto (ecsSave ecsAuto)).2 = .ok () ∧
    (ecsLoad ecsAuto (ecsSave ecsAuto)).1.archetypes.map (fun en => en.2.free)
      ≠ ecsAuto.archetypes.map (fun en => en.2.free) := by
  decide

/-- **C1** (amended): for every well-formed registry without
`NeverSerialize` archetypes or components (POD-streamed columns, distinct
names and ids, counts and values in range) in which no archetype has an
auto-compress maintenance policy, `load(save(S))` completes successfully
and reproduces every archetype's state table, free list and every
column's cells exactly — hence all live entities iterate in the same
archetype+slot order with equal component values. -/
theorem claim_C1_serialization_roundtrip_amended (e : Ecs Nat)
    (hwf : wfEcsB e = true)
    (hnac : ∀ en ∈ e.archetypes, noAutoCompressB en.2 = true) :
    (ecsLoad e (ecsSave e)).2 = .ok () ∧
    snapshot (ecsLoad e (ecsSave e)).1 = snapshot e := by
  rw [ecsLoad_ecsSave e hwf]
  refine ⟨rfl, ?_⟩
  unfold snapshot
  dsimp only
  rw [List.map_map]
  apply List.map_congr_left
  intro en hen
  obtain ⟨hid, hst, hfr, htu⟩ := performMaintenance_fields en.2 (hnac en hen)
  simp [Function.comp, hid, hst, hfr, htu]

/-- Witness for the amended C1 on the concrete two-archetype registry. -/
theorem claim_C1_serialization_roundtrip_amended_witness :
    (ecsLoad ecsFix (ecsSave ecsFix)).2 = .ok () ∧
    snapshot (ecsLoad ecsFix (ecsSave ecsFix)).1 = snapshot ecsFix :=
  claim_C1_serialization_roundtrip_amended ecsFix (by decide) (by decide)

end EcsModel
